import Mathlib

/-!
Shallow embedding of the `board` Django application
(`src/urban_project/board/{models,signals,views}.py`).

Rows are Lean structures, the database is a `State` of row lists, each view
function is a Lean function from a state and request data to a response and a
new state.  Fallible ORM calls (`Model.objects.get`) are modelled with
`Except String`, where `.error` stands for an uncaught `DoesNotExist`
exception; `get_object_or_404` instead yields the `notFound` response.
Primary keys are `Nat`; counters are `Int` (Django integer fields may go
negative under `-= 1`).  The `created_at` timestamp fields carry no logic in
any view or handler and are not modelled.
-/

/-- A row of `board.models.Advertisement` (models.py).
The `likes`/`dislikes` counter fields are modelled from the spec: the model
excerpt in models.py does not show them, but views.py reads and increments
them and the spec lists them as counters on the advertisement. -/
structure Advertisement where
  pk : Nat
  title : String
  content : String
  author : Nat
  image : Option String
  likes : Int
  dislikes : Int
  deriving DecidableEq, Repr

/-- A row of `board.models.Comment` (models.py): foreign keys to an
`Advertisement` (with `related_name='comments'`, `on_delete=CASCADE`) and to
the author `User` (`on_delete=CASCADE`). -/
structure Comment where
  advertisement : Nat
  author : Nat
  content : String
  deriving DecidableEq, Repr

/-- Modelled from the spec: the `UserProfile` model is imported by signals.py
and views.py but its definition is not under src/.  The spec describes it as a
one-to-one companion to a user tracking `advertisements_count`, `total_likes`
and `total_dislikes`, denormalized counters kept in sync by event handlers. -/
structure UserProfile where
  user : Nat
  advertisements_count : Int
  total_likes : Int
  total_dislikes : Int
  deriving DecidableEq, Repr

/-- The persisted state: the relational tables plus the auto-increment
primary-key counters for users and advertisements. -/
structure State where
  users : List Nat
  profiles : List UserProfile
  ads : List Advertisement
  comments : List Comment
  nextUserPk : Nat
  nextAdPk : Nat
  deriving DecidableEq, Repr

def initialState : State :=
  { users := [], profiles := [], ads := [], comments := [],
    nextUserPk := 0, nextAdPk := 0 }

/-- HTTP request method, as tested by `request.method == 'POST'`. -/
inductive Method where
  | GET
  | POST
  deriving DecidableEq, Repr

/-- The responses the board views produce: template rendering, the redirects
to the named routes appearing in views.py, and the 404 page produced by
`get_object_or_404`. -/
inductive Response where
  | render (template : String)
  | redirectLogin
  | redirectList
  | redirectDetail (pk : Nat)
  | redirectBoard
  | notFound
  deriving DecidableEq, Repr

/-- Modelled from the spec: `board.forms.AdvertisementForm` is imported by
views.py but forms.py is not under src/.  The views only test `is_valid()` and
save the form-carried advertisement fields, so the form is its validity flag
plus the bound field values. -/
structure AdvertisementForm where
  valid : Bool
  title : String
  content : String
  image : Option String
  deriving DecidableEq, Repr

/-- Modelled from the spec: `board.forms.SignUpForm`; the signup view only
tests `is_valid()` and calls `form.save()` to create the user. -/
structure SignUpForm where
  valid : Bool
  deriving DecidableEq, Repr

/-- `Advertisement.objects.get(pk=pk)` / `get_object_or_404(Advertisement, pk=pk)`
lookup part: the first row with the given primary key. -/
def findAdvertisement (ads : List Advertisement) (pk : Nat) : Option Advertisement :=
  ads.find? (fun a => a.pk = pk)

/-- `UserProfile.objects.get(user=u)` lookup part: the first profile row of
the given user. -/
def findProfile (ps : List UserProfile) (u : Nat) : Option UserProfile :=
  ps.find? (fun p => p.user = u)

/-- `profile.save()`: writes the row back in place, identified by its
one-to-one `user` key. -/
def saveProfile (ps : List UserProfile) (p : UserProfile) : List UserProfile :=
  ps.map (fun q => if q.user = p.user then p else q)

/-- `advertisement.save()` on an existing row: writes it back in place,
identified by its primary key. -/
def saveAdvertisement (ads : List Advertisement) (a : Advertisement) : List Advertisement :=
  ads.map (fun b => if b.pk = a.pk then a else b)

/-- `UserProfile.objects.get_or_create(user=u)`: the existing row, or a fresh
row with zeroed counters appended to the table. -/
def getOrCreateProfile (ps : List UserProfile) (u : Nat) :
    UserProfile × List UserProfile :=
  match findProfile ps u with
  | some p => (p, ps)
  | none => (⟨u, 0, 0, 0⟩, ps ++ [⟨u, 0, 0, 0⟩])

/-- signals.py `update_user_statistics_on_create` (post_save receiver): if the
save created the row, get-or-create the author's profile and increment its
`advertisements_count`. -/
def update_user_statistics_on_create (created : Bool) (inst : Advertisement)
    (ps : List UserProfile) : List UserProfile :=
  if created then
    let (profile, ps1) := getOrCreateProfile ps inst.author
    saveProfile ps1 { profile with advertisements_count := profile.advertisements_count + 1 }
  else ps

/-- signals.py `update_user_statistics_on_delete` (post_delete receiver): an
unguarded `UserProfile.objects.get` followed by a decrement; the get raises
`DoesNotExist` when the author has no profile row. -/
def update_user_statistics_on_delete (inst : Advertisement)
    (ps : List UserProfile) : Except String (List UserProfile) :=
  match findProfile ps inst.author with
  | none => .error "UserProfile matching query does not exist"
  | some profile =>
      .ok (saveProfile ps { profile with advertisements_count := profile.advertisements_count - 1 })

/-- signals.py `update_user_statistics_on_like` (post_save receiver): fires on
every save; if the saved row's absolute `likes` counter is positive, increment
the author's `total_likes` (unguarded get). -/
def update_user_statistics_on_like (inst : Advertisement)
    (ps : List UserProfile) : Except String (List UserProfile) :=
  if 0 < inst.likes then
    match findProfile ps inst.author with
    | none => .error "UserProfile matching query does not exist"
    | some profile =>
        .ok (saveProfile ps { profile with total_likes := profile.total_likes + 1 })
  else .ok ps

/-- signals.py `update_user_statistics_on_dislike` (post_save receiver):
symmetric to the like handler, on the `dislikes` counter. -/
def update_user_statistics_on_dislike (inst : Advertisement)
    (ps : List UserProfile) : Except String (List UserProfile) :=
  if 0 < inst.dislikes then
    match findProfile ps inst.author with
    | none => .error "UserProfile matching query does not exist"
    | some profile =>
        .ok (saveProfile ps { profile with total_dislikes := profile.total_dislikes + 1 })
  else .ok ps

/-- The `post_save` signal on `Advertisement`: the three post_save receivers
of signals.py run in registration order on every save. -/
def advertisement_post_save (created : Bool) (inst : Advertisement)
    (ps : List UserProfile) : Except String (List UserProfile) := do
  let ps1 := update_user_statistics_on_create created inst ps
  let ps2 ← update_user_statistics_on_like inst ps1
  update_user_statistics_on_dislike inst ps2

/-- views.py `signup`: on a valid POST, create the user, create its
`UserProfile`, log in and redirect to `/board`; otherwise render the signup
form. -/
def signup (s : State) (method : Method) (form : SignUpForm) : Response × State :=
  if method = Method.POST then
    if form.valid then
      let u := s.nextUserPk
      (Response.redirectBoard,
       { s with users := s.users ++ [u],
                profiles := s.profiles ++ [⟨u, 0, 0, 0⟩],
                nextUserPk := u + 1 })
    else (Response.render "signup.html", s)
  else (Response.render "signup.html", s)

/-- views.py pagination block of `advertisement_list`: `Paginator(objs, per)`
has `max 1 ⌈count / per⌉` pages, and `get_page` falls back to page 1 on a
missing/non-integer page number and to the last page on an out-of-range one;
the page holds the corresponding slice of the object list. -/
def paginatorGetPage (objs : List Advertisement) (perPage : Nat)
    (pageNumber : Option Nat) : List Advertisement :=
  let numPages := max 1 ((objs.length + perPage - 1) / perPage)
  let number := match pageNumber with
    | none => 1
    | some n => if n < 1 ∨ numPages < n then numPages else n
  (objs.drop ((number - 1) * perPage)).take perPage

/-- views.py `advertisement_list`: paginate all advertisements 5 per page and
render the list template with the requested page object. -/
def advertisement_list (s : State) (pageNumber : Option Nat) :
    Response × List Advertisement :=
  (Response.render "board/advertisement_list.html",
   paginatorGetPage s.ads 5 pageNumber)

/-- views.py `advertisement_detail`: a raw `Advertisement.objects.get(pk=pk)`
— a missing row raises an uncaught `DoesNotExist`, not a 404. -/
def advertisement_detail (s : State) (pk : Nat) : Except String Response :=
  match findAdvertisement s.ads pk with
  | none => .error "Advertisement matching query does not exist"
  | some _ => .ok (Response.render "board/advertisement_detail.html")

/-- views.py `add_advertisement` (`@login_required`): on a valid POST, save a
new advertisement authored by the requesting user (firing the post_save
receivers) and redirect to the list; otherwise render the empty form. -/
def add_advertisement (s : State) (user : Option Nat) (method : Method)
    (form : AdvertisementForm) : Except String (Response × State) :=
  match user with
  | none => .ok (Response.redirectLogin, s)
  | some u =>
    if method = Method.POST then
      if form.valid then
        let advertisement : Advertisement :=
          ⟨s.nextAdPk, form.title, form.content, u, form.image, 0, 0⟩
        match advertisement_post_save true advertisement s.profiles with
        | .error e => .error e
        | .ok ps =>
            .ok (Response.redirectList,
                 { s with ads := s.ads ++ [advertisement], profiles := ps,
                          nextAdPk := s.nextAdPk + 1 })
      else .ok (Response.render "board/add_advertisement.html", s)
    else .ok (Response.render "board/add_advertisement.html", s)

/-- views.py `edit_advertisement` (`@login_required`): 404 on a missing pk,
redirect to the list when the requester is not the author, save the form
fields on a valid POST (firing the post_save receivers on the save) and
redirect to the detail page, otherwise render the edit form. -/
def edit_advertisement (s : State) (user : Option Nat) (method : Method)
    (pk : Nat) (form : AdvertisementForm) : Except String (Response × State) :=
  match user with
  | none => .ok (Response.redirectLogin, s)
  | some u =>
    match findAdvertisement s.ads pk with
    | none => .ok (Response.notFound, s)
    | some advertisement =>
      if advertisement.author ≠ u then .ok (Response.redirectList, s)
      else if method = Method.POST then
        if form.valid then
          let updated := { advertisement with
                           title := form.title, content := form.content,
                           image := form.image }
          match advertisement_post_save false updated s.profiles with
          | .error e => .error e
          | .ok ps =>
              .ok (Response.redirectDetail advertisement.pk,
                   { s with ads := saveAdvertisement s.ads updated, profiles := ps })
        else .ok (Response.render "board/edit_advertisement.html", s)
      else .ok (Response.render "board/edit_advertisement.html", s)

/-- views.py `delete_advertisement` (`@login_required`): 404 on a missing pk,
redirect to the list when the requester is not the author, on POST delete the
row (cascading to its comments and firing the post_delete receiver) and
redirect to the list, otherwise render the confirmation page. -/
def delete_advertisement (s : State) (user : Option Nat) (method : Method)
    (pk : Nat) : Except String (Response × State) :=
  match user with
  | none => .ok (Response.redirectLogin, s)
  | some u =>
    match findAdvertisement s.ads pk with
    | none => .ok (Response.notFound, s)
    | some advertisement =>
      if advertisement.author ≠ u then .ok (Response.redirectList, s)
      else if method = Method.POST then
        match update_user_statistics_on_delete advertisement s.profiles with
        | .error e => .error e
        | .ok ps =>
            .ok (Response.redirectList,
                 { s with ads := s.ads.filter (fun a => a.pk ≠ pk),
                          comments := s.comments.filter (fun c => c.advertisement ≠ pk),
                          profiles := ps })
      else .ok (Response.render "board/delete_advertisement_confirm.html", s)

/-- views.py `like_advertisement` (`@login_required`): 404 on a missing pk,
increment the advertisement's `likes` and save it (firing the post_save
receivers), then fetch the author's profile, increment its `total_likes`, and
redirect to the detail page. -/
def like_advertisement (s : State) (user : Option Nat) (pk : Nat) :
    Except String (Response × State) :=
  match user with
  | none => .ok (Response.redirectLogin, s)
  | some _ =>
    match findAdvertisement s.ads pk with
    | none => .ok (Response.notFound, s)
    | some advertisement =>
      let updated := { advertisement with likes := advertisement.likes + 1 }
      match advertisement_post_save false updated s.profiles with
      | .error e => .error e
      | .ok ps1 =>
        match findProfile ps1 updated.author with
        | none => .error "UserProfile matching query does not exist"
        | some profile =>
            .ok (Response.redirectDetail pk,
                 { s with ads := saveAdvertisement s.ads updated,
                          profiles := saveProfile ps1
                            { profile with total_likes := profile.total_likes + 1 } })

/-- views.py `dislike_advertisement` (`@login_required`): symmetric to
`like_advertisement`, on the `dislikes` counter. -/
def dislike_advertisement (s : State) (user : Option Nat) (pk : Nat) :
    Except String (Response × State) :=
  match user with
  | none => .ok (Response.redirectLogin, s)
  | some _ =>
    match findAdvertisement s.ads pk with
    | none => .ok (Response.notFound, s)
    | some advertisement =>
      let updated := { advertisement with dislikes := advertisement.dislikes + 1 }
      match advertisement_post_save false updated s.profiles with
      | .error e => .error e
      | .ok ps1 =>
        match findProfile ps1 updated.author with
        | none => .error "UserProfile matching query does not exist"
        | some profile =>
            .ok (Response.redirectDetail pk,
                 { s with ads := saveAdvertisement s.ads updated,
                          profiles := saveProfile ps1
                            { profile with total_dislikes := profile.total_dislikes + 1 } })

/-- Modelled from the spec: no comment-creation view is under src/, but the
spec says users comment on advertisements, and models.py constrains a Comment
row by foreign keys to an existing Advertisement and an existing user.
Creating a comment therefore requires both referents to be live rows. -/
def add_comment (s : State) (u : Nat) (adPk : Nat) (content : String) :
    Option State :=
  if u ∈ s.users ∧ (findAdvertisement s.ads adPk).isSome then
    some { s with comments := s.comments ++ [⟨adPk, u, content⟩] }
  else none

/-- The row-level cascade declared in models.py when a `User` row is deleted:
`Advertisement.author` and `Comment.author` have `on_delete=CASCADE`, and
`Comment.advertisement` has `on_delete=CASCADE`, so the user's advertisements
are deleted, and a comment is deleted when its author is the deleted user or
its advertisement was cascade-deleted; the one-to-one profile row goes with
its user. -/
def delete_user (s : State) (u : Nat) : State :=
  { s with users := s.users.filter (fun v => v ≠ u),
           profiles := s.profiles.filter (fun p => p.user ≠ u),
           ads := s.ads.filter (fun a => a.author ≠ u),
           comments := s.comments.filter (fun c =>
             c.author ≠ u ∧ (s.ads.filter (fun a => a.author = u)).all (fun a => a.pk ≠ c.advertisement)) }

/-- The states reachable through the application: users exist only via
`signup`, advertisements are created/edited/deleted/liked/disliked only
through the views (an authenticated requester is a live user), and comments
respect the model's foreign keys. -/
inductive Reachable : State → Prop where
  | init : Reachable initialState
  | signup_step {s r s1 m f} : Reachable s →
      signup s m f = (r, s1) → Reachable s1
  | add_step {s r s1 uo m f} : Reachable s →
      (∀ u, uo = some u → u ∈ s.users) →
      add_advertisement s uo m f = .ok (r, s1) → Reachable s1
  | edit_step {s r s1 uo m pk f} : Reachable s →
      (∀ u, uo = some u → u ∈ s.users) →
      edit_advertisement s uo m pk f = .ok (r, s1) → Reachable s1
  | delete_step {s r s1 uo m pk} : Reachable s →
      (∀ u, uo = some u → u ∈ s.users) →
      delete_advertisement s uo m pk = .ok (r, s1) → Reachable s1
  | like_step {s r s1 uo pk} : Reachable s →
      (∀ u, uo = some u → u ∈ s.users) →
      like_advertisement s uo pk = .ok (r, s1) → Reachable s1
  | dislike_step {s r s1 uo pk} : Reachable s →
      (∀ u, uo = some u → u ∈ s.users) →
      dislike_advertisement s uo pk = .ok (r, s1) → Reachable s1
  | comment_step {s s1 u pk c} : Reachable s →
      add_comment s u pk c = some s1 → Reachable s1

/-- The advertisements of user `u` in state `s`. -/
def adsOf (s : State) (u : Nat) : List Advertisement :=
  s.ads.filter (fun a => a.author = u)

/-- Sum of the `likes` counters over a list of advertisements. -/
def sumLikes (l : List Advertisement) : Int :=
  (l.map (fun a => a.likes)).sum

/-- Sum of the `dislikes` counters over a list of advertisements. -/
def sumDislikes (l : List Advertisement) : Int :=
  (l.map (fun a => a.dislikes)).sum

/-- A one-advertisement database used as a concrete input: users 0 and 1,
user 0 owns advertisement 0 and has the matching profile. -/
def demoAd : Advertisement := ⟨0, "title", "content", 0, none, 0, 0⟩

def demoState : State :=
  { users := [0, 1], profiles := [⟨0, 1, 0, 0⟩], ads := [demoAd],
    comments := [], nextUserPk := 2, nextAdPk := 1 }

/-- A one-advertisement database where the advertisement already carries one
like, used as a concrete input for the save receivers. -/
def demoAdLiked : Advertisement := ⟨0, "title", "content", 0, none, 1, 1⟩

def demoStateLiked : State :=
  { users := [0, 1], profiles := [⟨0, 1, 1, 1⟩], ads := [demoAdLiked],
    comments := [], nextUserPk := 2, nextAdPk := 1 }

/-- The invariant the application maintains across all reachable states: keys
are fresh and duplicate-free, every row's foreign keys point at live rows,
every user has exactly one profile, the advertisement counters are
nonnegative, each profile's `advertisements_count` is exact while
`total_likes`/`total_dislikes` dominate the corresponding sums. -/
structure StateInv (s : State) : Prop where
  users_lt : ∀ u ∈ s.users, u < s.nextUserPk
  profiles_user_mem : ∀ p ∈ s.profiles, p.user ∈ s.users
  profiles_unique : s.profiles.Pairwise (fun p q => p.user ≠ q.user)
  user_has_profile : ∀ u ∈ s.users, ∃ p ∈ s.profiles, p.user = u
  ads_author_mem : ∀ a ∈ s.ads, a.author ∈ s.users
  ads_pk_lt : ∀ a ∈ s.ads, a.pk < s.nextAdPk
  ads_pk_unique : s.ads.Pairwise (fun a b => a.pk ≠ b.pk)
  likes_nonneg : ∀ a ∈ s.ads, 0 ≤ a.likes
  dislikes_nonneg : ∀ a ∈ s.ads, 0 ≤ a.dislikes
  count_eq : ∀ p ∈ s.profiles, p.advertisements_count = ((adsOf s p.user).length : Int)
  likes_le : ∀ p ∈ s.profiles, sumLikes (adsOf s p.user) ≤ p.total_likes
  dislikes_le : ∀ p ∈ s.profiles, sumDislikes (adsOf s p.user) ≤ p.total_dislikes
  comments_ad_live : ∀ c ∈ s.comments, ∃ a ∈ s.ads, a.pk = c.advertisement
  comments_author_mem : ∀ c ∈ s.comments, c.author ∈ s.users

/-- The state after user 0 signs up. -/
def signupState : State := ⟨[0], [⟨0, 0, 0, 0⟩], [], [], 1, 0⟩

/-- The state after user 0 signs up and posts advertisement 0. -/
def addState : State :=
  ⟨[0], [⟨0, 1, 0, 0⟩], [⟨0, "t", "c", 0, none, 0, 0⟩], [], 1, 1⟩

/-- The state after user 0 signs up, posts advertisement 0 and likes it. -/
def likedState : State :=
  ⟨[0], [⟨0, 1, 2, 0⟩], [⟨0, "t", "c", 0, none, 1, 0⟩], [], 1, 1⟩

/-- The state after user 0 signs up, posts advertisement 0 and comments on it. -/
def commentedState : State :=
  ⟨[0], [⟨0, 1, 0, 0⟩], [⟨0, "t", "c", 0, none, 0, 0⟩], [⟨0, 0, "hi"⟩], 1, 1⟩

/-! ### Basic response lemmas -/

/-- C6: The advertisement list view paginates at 5 per page: for every state
and every requested page number, the rendered page object holds at most 5
advertisements. -/
theorem C6_list_page_at_most_five (s : State) (pageNumber : Option Nat) :
    (advertisement_list s pageNumber).2.length ≤ 5 := by
  unfold advertisement_list paginatorGetPage
  simp [List.length_take]

/-- C7: An unauthenticated request to any protected action (add, edit,
delete, like, dislike) is redirected to the login page with the state
unchanged. -/
theorem C7_unauthenticated_redirects_to_login (s : State) (m : Method)
    (pk : Nat) (f : AdvertisementForm) :
    add_advertisement s none m f = .ok (Response.redirectLogin, s) ∧
    edit_advertisement s none m pk f = .ok (Response.redirectLogin, s) ∧
    delete_advertisement s none m pk = .ok (Response.redirectLogin, s) ∧
    like_advertisement s none pk = .ok (Response.redirectLogin, s) ∧
    dislike_advertisement s none pk = .ok (Response.redirectLogin, s) :=
  ⟨rfl, rfl, rfl, rfl, rfl⟩

/-- C3 counterexample: it is not the case that every view that looks up an
advertisement by primary key yields the not-found response on a missing pk:
the detail view raises an uncaught `DoesNotExist` instead. -/
theorem C3_counterexample :
    ¬ (∀ (s : State) (u : Nat) (m : Method) (pk : Nat) (f : AdvertisementForm),
        findAdvertisement s.ads pk = none →
        advertisement_detail s pk = .ok Response.notFound ∧
        edit_advertisement s (some u) m pk f = .ok (Response.notFound, s) ∧
        delete_advertisement s (some u) m pk = .ok (Response.notFound, s) ∧
        like_advertisement s (some u) pk = .ok (Response.notFound, s) ∧
        dislike_advertisement s (some u) pk = .ok (Response.notFound, s)) := by
  intro h
  have h2 := (h initialState 0 Method.GET 0 ⟨true, "", "", none⟩ rfl).1
  simp [advertisement_detail, initialState, findAdvertisement] at h2

/-- C3 amended: on a pk that matches no advertisement, the edit, delete, like
and dislike views (authenticated) yield the not-found response, while the
detail view raises an uncaught `DoesNotExist` exception. -/
theorem C3_missing_pk (s : State) (u : Nat) (m : Method) (pk : Nat)
    (f : AdvertisementForm) (h : findAdvertisement s.ads pk = none) :
    edit_advertisement s (some u) m pk f = .ok (Response.notFound, s) ∧
    delete_advertisement s (some u) m pk = .ok (Response.notFound, s) ∧
    like_advertisement s (some u) pk = .ok (Response.notFound, s) ∧
    dislike_advertisement s (some u) pk = .ok (Response.notFound, s) ∧
    advertisement_detail s pk = .error "Advertisement matching query does not exist" := by
  refine ⟨?_, ?_, ?_, ?_, ?_⟩ <;>
    simp [edit_advertisement, delete_advertisement, like_advertisement,
          dislike_advertisement, advertisement_detail, h]

/-- Witness for C3 at a concrete input: the empty database and pk 0. -/
theorem C3_missing_pk_witness :
    findAdvertisement initialState.ads 0 = none ∧
    (edit_advertisement initialState (some 0) Method.GET 0 ⟨true, "", "", none⟩ =
        .ok (Response.notFound, initialState) ∧
      delete_advertisement initialState (some 0) Method.GET 0 =
        .ok (Response.notFound, initialState) ∧
      like_advertisement initialState (some 0) 0 =
        .ok (Response.notFound, initialState) ∧
      dislike_advertisement initialState (some 0) 0 =
        .ok (Response.notFound, initialState) ∧
      advertisement_detail initialState 0 =
        .error "Advertisement matching query does not exist") :=
  ⟨rfl, C3_missing_pk initialState 0 Method.GET 0 ⟨true, "", "", none⟩ rfl⟩

/-- C4: an authenticated edit or delete request on an advertisement by a
different author is redirected to the advertisement list and the returned
state is the request state itself — no row and no counter changes. -/
theorem C4_non_author_redirects_unchanged (s : State) (u : Nat) (m : Method)
    (pk : Nat) (f : AdvertisementForm) (a : Advertisement)
    (h : findAdvertisement s.ads pk = some a) (hne : a.author ≠ u) :
    edit_advertisement s (some u) m pk f = .ok (Response.redirectList, s) ∧
    delete_advertisement s (some u) m pk = .ok (Response.redirectList, s) := by
  constructor <;> simp [edit_advertisement, delete_advertisement, h, hne]

/-- Witness for C4 at a concrete input: user 1 asking to edit/delete
user 0's advertisement. -/
theorem C4_non_author_witness :
    findAdvertisement demoState.ads 0 = some demoAd ∧ demoAd.author ≠ 1 ∧
    (edit_advertisement demoState (some 1) Method.POST 0 ⟨true, "x", "y", none⟩ =
        .ok (Response.redirectList, demoState) ∧
      delete_advertisement demoState (some 1) Method.POST 0 =
        .ok (Response.redirectList, demoState)) :=
  ⟨rfl, by decide,
   C4_non_author_redirects_unchanged demoState 1 Method.POST 0
     ⟨true, "x", "y", none⟩ demoAd rfl (by decide)⟩

/-- C5: an authenticated POST to the add view with a valid form appends
exactly one advertisement row, authored by the requesting user, and redirects
to the list (the profile table is updated by the create receiver); an invalid
POST or a GET returns the form page with the state unchanged. -/
theorem C5_add_advertisement (s : State) (u : Nat) (f : AdvertisementForm) :
    (f.valid = true →
      add_advertisement s (some u) Method.POST f =
        .ok (Response.redirectList,
          { s with
            ads := s.ads ++ [⟨s.nextAdPk, f.title, f.content, u, f.image, 0, 0⟩],
            profiles := update_user_statistics_on_create true
              ⟨s.nextAdPk, f.title, f.content, u, f.image, 0, 0⟩ s.profiles,
            nextAdPk := s.nextAdPk + 1 })) ∧
    (f.valid = false →
      add_advertisement s (some u) Method.POST f =
        .ok (Response.render "board/add_advertisement.html", s)) ∧
    add_advertisement s (some u) Method.GET f =
      .ok (Response.render "board/add_advertisement.html", s) := by
  refine ⟨fun hv => ?_, fun hv => ?_, ?_⟩
  · simp [add_advertisement, advertisement_post_save,
          update_user_statistics_on_like, update_user_statistics_on_dislike,
          Bind.bind, Except.bind, hv]
  · simp [add_advertisement, hv]
  · simp [add_advertisement]

/-- Witness for C5 at a concrete input: user 0 posting a valid form on the
demo database. -/
theorem C5_add_advertisement_witness :
    ((⟨true, "x", "y", none⟩ : AdvertisementForm).valid = true →
      add_advertisement demoState (some 0) Method.POST ⟨true, "x", "y", none⟩ =
        .ok (Response.redirectList,
          { demoState with
            ads := demoState.ads ++ [⟨demoState.nextAdPk, "x", "y", 0, none, 0, 0⟩],
            profiles := update_user_statistics_on_create true
              ⟨demoState.nextAdPk, "x", "y", 0, none, 0, 0⟩ demoState.profiles,
            nextAdPk := demoState.nextAdPk + 1 })) ∧
    ((⟨true, "x", "y", none⟩ : AdvertisementForm).valid = false →
      add_advertisement demoState (some 0) Method.POST ⟨true, "x", "y", none⟩ =
        .ok (Response.render "board/add_advertisement.html", demoState)) ∧
    add_advertisement demoState (some 0) Method.GET ⟨true, "x", "y", none⟩ =
      .ok (Response.render "board/add_advertisement.html", demoState) :=
  C5_add_advertisement demoState 0 ⟨true, "x", "y", none⟩

/-! ### Lemmas about the row-store primitives -/

theorem user_of_findProfile {ps : List UserProfile} {v : Nat} {q : UserProfile}
    (h : findProfile ps v = some q) : q.user = v := by
  unfold findProfile at h
  simpa using List.find?_some h

theorem mem_of_findProfile {ps : List UserProfile} {v : Nat} {q : UserProfile}
    (h : findProfile ps v = some q) : q ∈ ps :=
  List.mem_of_find?_eq_some h

theorem pk_of_findAdvertisement {ads : List Advertisement} {pk : Nat} {a : Advertisement}
    (h : findAdvertisement ads pk = some a) : a.pk = pk := by
  unfold findAdvertisement at h
  simpa using List.find?_some h

theorem mem_of_findAdvertisement {ads : List Advertisement} {pk : Nat} {a : Advertisement}
    (h : findAdvertisement ads pk = some a) : a ∈ ads :=
  List.mem_of_find?_eq_some h

theorem findProfile_saveProfile (ps : List UserProfile) (p : UserProfile) (v : Nat) :
    findProfile (saveProfile ps p) v =
      (findProfile ps v).map (fun q => if q.user = p.user then p else q) := by
  unfold findProfile saveProfile
  rw [List.find?_map]
  have hpred : ((fun q : UserProfile => decide (q.user = v)) ∘
      fun q => if q.user = p.user then p else q) =
      fun q : UserProfile => decide (q.user = v) := by
    funext q
    by_cases hq : q.user = p.user <;> simp [Function.comp, hq]
  rw [hpred]

theorem findProfile_save_self {ps : List UserProfile} {p q : UserProfile}
    (h : findProfile ps p.user = some q) :
    findProfile (saveProfile ps p) p.user = some p := by
  rw [findProfile_saveProfile, h]
  simp [user_of_findProfile h]

theorem findProfile_save_other {ps : List UserProfile} {p : UserProfile} {v : Nat}
    (hne : v ≠ p.user) :
    findProfile (saveProfile ps p) v = findProfile ps v := by
  rw [findProfile_saveProfile]
  cases hf : findProfile ps v with
  | none => rfl
  | some q =>
    have : q.user = v := user_of_findProfile hf
    simp [this, hne]

theorem findAdvertisement_saveAdvertisement (ads : List Advertisement)
    (a : Advertisement) (pk : Nat) :
    findAdvertisement (saveAdvertisement ads a) pk =
      (findAdvertisement ads pk).map (fun b => if b.pk = a.pk then a else b) := by
  unfold findAdvertisement saveAdvertisement
  rw [List.find?_map]
  have hpred : ((fun b : Advertisement => decide (b.pk = pk)) ∘
      fun b => if b.pk = a.pk then a else b) =
      fun b : Advertisement => decide (b.pk = pk) := by
    funext b
    by_cases hb : b.pk = a.pk <;> simp [hb]
  rw [hpred]

theorem findAdvertisement_save_self {ads : List Advertisement} {a b : Advertisement}
    (h : findAdvertisement ads a.pk = some b) :
    findAdvertisement (saveAdvertisement ads a) a.pk = some a := by
  rw [findAdvertisement_saveAdvertisement, h]
  simp [pk_of_findAdvertisement h]

theorem on_create_existing {inst : Advertisement} {ps : List UserProfile}
    {p : UserProfile} (hp : findProfile ps inst.author = some p) :
    update_user_statistics_on_create true inst ps =
      saveProfile ps { p with advertisements_count := p.advertisements_count + 1 } := by
  unfold update_user_statistics_on_create getOrCreateProfile
  simp [hp]

/-- Running the three post_save receivers on a save whose author has a profile
row always succeeds, and the author's resulting profile counters move by: the
advertisement count by 1 when the save is a creation, the like/dislike totals
by 1 whenever the corresponding absolute counter of the saved row is
positive. -/
theorem advertisement_post_save_profile (created : Bool) (inst : Advertisement)
    (ps : List UserProfile) (p : UserProfile)
    (hp : findProfile ps inst.author = some p) :
    ∃ qs q, advertisement_post_save created inst ps = .ok qs ∧
      findProfile qs inst.author = some q ∧
      q.user = p.user ∧
      q.advertisements_count = p.advertisements_count + (if created then 1 else 0) ∧
      q.total_likes = p.total_likes + (if 0 < inst.likes then 1 else 0) ∧
      q.total_dislikes = p.total_dislikes + (if 0 < inst.dislikes then 1 else 0) := by
  have hpu : p.user = inst.author := user_of_findProfile hp
  -- step 1: the create receiver
  obtain ⟨ps1, p1, hps1, hf1, hu1, hc1, hl1, hd1⟩ :
      ∃ ps1 p1, update_user_statistics_on_create created inst ps = ps1 ∧
        findProfile ps1 inst.author = some p1 ∧ p1.user = p.user ∧
        p1.advertisements_count = p.advertisements_count + (if created then 1 else 0) ∧
        p1.total_likes = p.total_likes ∧ p1.total_dislikes = p.total_dislikes := by
    cases created with
    | false => exact ⟨ps, p, rfl, hp, rfl, by simp, rfl, rfl⟩
    | true =>
      refine ⟨saveProfile ps { p with advertisements_count := p.advertisements_count + 1 },
        { p with advertisements_count := p.advertisements_count + 1 },
        on_create_existing hp, ?_, rfl, by simp, rfl, rfl⟩
      have h2 := findProfile_save_self
        (p := { p with advertisements_count := p.advertisements_count + 1 })
        (q := p) (by simpa [hpu] using hp)
      simpa [hpu] using h2
  -- step 2: the like receiver
  obtain ⟨ps2, p2, hps2, hf2, hu2, hc2, hl2, hd2⟩ :
      ∃ ps2 p2, update_user_statistics_on_like inst ps1 = .ok ps2 ∧
        findProfile ps2 inst.author = some p2 ∧ p2.user = p1.user ∧
        p2.advertisements_count = p1.advertisements_count ∧
        p2.total_likes = p1.total_likes + (if 0 < inst.likes then 1 else 0) ∧
        p2.total_dislikes = p1.total_dislikes := by
    by_cases hl : 0 < inst.likes
    · refine ⟨saveProfile ps1 { p1 with total_likes := p1.total_likes + 1 },
        { p1 with total_likes := p1.total_likes + 1 },
        by simp [update_user_statistics_on_like, hl, hf1], ?_, rfl, rfl, by simp [hl], rfl⟩
      have h2 := findProfile_save_self
        (p := { p1 with total_likes := p1.total_likes + 1 })
        (q := p1) (by simpa [hu1, hpu] using hf1)
      simpa [hu1, hpu] using h2
    · exact ⟨ps1, p1, by simp [update_user_statistics_on_like, hl], hf1, rfl, rfl,
        by simp [hl], rfl⟩
  -- step 3: the dislike receiver
  obtain ⟨ps3, p3, hps3, hf3, hu3, hc3, hl3, hd3⟩ :
      ∃ ps3 p3, update_user_statistics_on_dislike inst ps2 = .ok ps3 ∧
        findProfile ps3 inst.author = some p3 ∧ p3.user = p2.user ∧
        p3.advertisements_count = p2.advertisements_count ∧
        p3.total_likes = p2.total_likes ∧
        p3.total_dislikes = p2.total_dislikes + (if 0 < inst.dislikes then 1 else 0) := by
    by_cases hd : 0 < inst.dislikes
    · refine ⟨saveProfile ps2 { p2 with total_dislikes := p2.total_dislikes + 1 },
        { p2 with total_dislikes := p2.total_dislikes + 1 },
        by simp [update_user_statistics_on_dislike, hd, hf2], ?_, rfl, rfl, rfl, by simp [hd]⟩
      have h2 := findProfile_save_self
        (p := { p2 with total_dislikes := p2.total_dislikes + 1 })
        (q := p2) (by simpa [hu2, hu1, hpu] using hf2)
      simpa [hu2, hu1, hpu] using h2
    · exact ⟨ps2, p2, by simp [update_user_statistics_on_dislike, hd], hf2, rfl, rfl, rfl,
        by simp [hd]⟩
  refine ⟨ps3, p3, ?_, hf3, by rw [hu3, hu2, hu1], ?_, ?_, ?_⟩
  · simp [advertisement_post_save, Bind.bind, Except.bind, hps1, hps2, hps3]
  · rw [hc3, hc2, hc1]
  · rw [hl3, hl2, hl1]
  · rw [hd3, hd2, hd1]

theorem on_like_ok {inst : Advertisement} {ps : List UserProfile} {p : UserProfile}
    (hp : findProfile ps inst.author = some p) :
    ∃ qs q, update_user_statistics_on_like inst ps = .ok qs ∧
      findProfile qs inst.author = some q := by
  by_cases hl : 0 < inst.likes
  · refine ⟨saveProfile ps { p with total_likes := p.total_likes + 1 },
      { p with total_likes := p.total_likes + 1 },
      by simp [update_user_statistics_on_like, hl, hp], ?_⟩
    have hpu := user_of_findProfile hp
    have h2 := findProfile_save_self
      (p := { p with total_likes := p.total_likes + 1 }) (q := p)
      (by simpa [hpu] using hp)
    simpa [hpu] using h2
  · exact ⟨ps, p, by simp [update_user_statistics_on_like, hl], hp⟩

theorem on_dislike_ok {inst : Advertisement} {ps : List UserProfile} {p : UserProfile}
    (hp : findProfile ps inst.author = some p) :
    ∃ qs q, update_user_statistics_on_dislike inst ps = .ok qs ∧
      findProfile qs inst.author = some q := by
  by_cases hd : 0 < inst.dislikes
  · refine ⟨saveProfile ps { p with total_dislikes := p.total_dislikes + 1 },
      { p with total_dislikes := p.total_dislikes + 1 },
      by simp [update_user_statistics_on_dislike, hd, hp], ?_⟩
    have hpu := user_of_findProfile hp
    have h2 := findProfile_save_self
      (p := { p with total_dislikes := p.total_dislikes + 1 }) (q := p)
      (by simpa [hpu] using hp)
    simpa [hpu] using h2
  · exact ⟨ps, p, by simp [update_user_statistics_on_dislike, hd], hp⟩

/-- The create receiver always leaves the author with a profile row: either it
already existed or `get_or_create` just created it. -/
theorem on_create_gives_profile (inst : Advertisement) (ps : List UserProfile) :
    ∃ p1, findProfile (update_user_statistics_on_create true inst ps) inst.author = some p1 := by
  cases hf : findProfile ps inst.author with
  | some p =>
    rw [on_create_existing hf]
    have hpu := user_of_findProfile hf
    refine ⟨{ p with advertisements_count := p.advertisements_count + 1 }, ?_⟩
    have h2 := findProfile_save_self
      (p := { p with advertisements_count := p.advertisements_count + 1 }) (q := p)
      (by simpa [hpu] using hf)
    simpa [hpu] using h2
  | none =>
    unfold update_user_statistics_on_create getOrCreateProfile
    simp only [hf, if_true]
    have hfind : findProfile (ps ++ [⟨inst.author, 0, 0, 0⟩]) inst.author =
        some ⟨inst.author, 0, 0, 0⟩ := by
      unfold findProfile at hf ⊢
      rw [List.find?_append, hf]
      simp
    refine ⟨⟨inst.author, 0 + 1, 0, 0⟩, ?_⟩
    have h2 := findProfile_save_self
      (p := (⟨inst.author, 0 + 1, 0, 0⟩ : UserProfile))
      (q := (⟨inst.author, 0, 0, 0⟩ : UserProfile)) hfind
    simpa using h2

/-- C10: saving a newly created advertisement never raises for lack of a
profile row (the create receiver get-or-creates it before the like/dislike
receivers run), while the post_delete receiver's unguarded
`UserProfile.objects.get` raises `DoesNotExist` whenever the author has no
profile row. -/
theorem C10_create_guarded_delete_unguarded :
    (∀ (inst : Advertisement) (ps : List UserProfile),
        ∃ qs, advertisement_post_save true inst ps = .ok qs) ∧
    (∀ (inst : Advertisement) (ps : List UserProfile),
        findProfile ps inst.author = none →
        update_user_statistics_on_delete inst ps =
          .error "UserProfile matching query does not exist") := by
  constructor
  · intro inst ps
    obtain ⟨p1, hp1⟩ := on_create_gives_profile inst ps
    obtain ⟨ps2, p2, h2, hf2⟩ := on_like_ok hp1
    obtain ⟨ps3, p3, h3, hf3⟩ := on_dislike_ok hf2
    exact ⟨ps3, by simp [advertisement_post_save, Bind.bind, Except.bind, h2, h3]⟩
  · intro inst ps h
    unfold update_user_statistics_on_delete
    rw [h]

/-- Witness for C10 at a concrete input: an empty profile table. -/
theorem C10_witness :
    (∃ qs, advertisement_post_save true demoAd [] = .ok qs) ∧
    findProfile [] demoAd.author = none ∧
    update_user_statistics_on_delete demoAd [] =
      .error "UserProfile matching query does not exist" :=
  ⟨C10_create_guarded_delete_unguarded.1 demoAd [], rfl,
   C10_create_guarded_delete_unguarded.2 demoAd [] rfl⟩

/-- C2: the like/dislike receivers fire on every save of an advertisement —
creation or edit alike — and test the absolute counter (`> 0`), so any save of
a row whose `likes` counter is positive adds 1 to the author's `total_likes`
(symmetrically for dislikes), including an edit that changes neither counter. -/
theorem C2_handlers_fire_on_every_save :
    (∀ (created : Bool) (inst : Advertisement) (ps : List UserProfile) (p : UserProfile),
        findProfile ps inst.author = some p → 0 < inst.likes →
        ∃ qs q, advertisement_post_save created inst ps = .ok qs ∧
          findProfile qs inst.author = some q ∧
          q.total_likes = p.total_likes + 1) ∧
    (∀ (created : Bool) (inst : Advertisement) (ps : List UserProfile) (p : UserProfile),
        findProfile ps inst.author = some p → 0 < inst.dislikes →
        ∃ qs q, advertisement_post_save created inst ps = .ok qs ∧
          findProfile qs inst.author = some q ∧
          q.total_dislikes = p.total_dislikes + 1) ∧
    (∀ (s : State) (u : Nat) (pk : Nat) (f : AdvertisementForm)
        (a : Advertisement) (p : UserProfile),
        findAdvertisement s.ads pk = some a → a.author = u →
        findProfile s.profiles u = some p → f.valid = true → 0 < a.likes →
        ∃ s1 q, edit_advertisement s (some u) Method.POST pk f =
            .ok (Response.redirectDetail a.pk, s1) ∧
          findProfile s1.profiles u = some q ∧
          q.total_likes = p.total_likes + 1) := by
  refine ⟨?_, ?_, ?_⟩
  · intro created inst ps p hp hl
    obtain ⟨qs, q, hok, hfq, _, _, hlq, _⟩ :=
      advertisement_post_save_profile created inst ps p hp
    exact ⟨qs, q, hok, hfq, by simp [hl] at hlq; exact hlq⟩
  · intro created inst ps p hp hd
    obtain ⟨qs, q, hok, hfq, _, _, _, hdq⟩ :=
      advertisement_post_save_profile created inst ps p hp
    exact ⟨qs, q, hok, hfq, by simp [hd] at hdq; exact hdq⟩
  · intro s u pk f a p hfa hau hp hv hl
    have hp2 : findProfile s.profiles
        ({ a with title := f.title, content := f.content, image := f.image }).author = some p := by
      simpa [hau] using hp
    obtain ⟨qs, q, hok, hfq, _, _, hlq, _⟩ :=
      advertisement_post_save_profile false
        { a with title := f.title, content := f.content, image := f.image } s.profiles p hp2
    refine ⟨{ s with ads := saveAdvertisement s.ads { a with title := f.title, content := f.content, image := f.image }, profiles := qs }, q, ?_, ?_, ?_⟩
    · rw [hau] at hok
      simp [edit_advertisement, hfa, hau, hv, hok]
    · simpa [hau] using hfq
    · simpa [hl] using hlq

/-- Witness for C2 at a concrete input: an edit-save (`created = false`) of an
advertisement carrying one like and one dislike. -/
theorem C2_handlers_witness :
    (∃ qs q, advertisement_post_save false demoAdLiked demoStateLiked.profiles = .ok qs ∧
      findProfile qs demoAdLiked.author = some q ∧
      q.total_likes = (⟨0, 1, 1, 1⟩ : UserProfile).total_likes + 1) ∧
    (∃ qs q, advertisement_post_save false demoAdLiked demoStateLiked.profiles = .ok qs ∧
      findProfile qs demoAdLiked.author = some q ∧
      q.total_dislikes = (⟨0, 1, 1, 1⟩ : UserProfile).total_dislikes + 1) ∧
    (∃ s1 q, edit_advertisement demoStateLiked (some 0) Method.POST 0 ⟨true, "x", "y", none⟩ =
        .ok (Response.redirectDetail demoAdLiked.pk, s1) ∧
      findProfile s1.profiles 0 = some q ∧
      q.total_likes = (⟨0, 1, 1, 1⟩ : UserProfile).total_likes + 1) :=
  ⟨C2_handlers_fire_on_every_save.1 false demoAdLiked demoStateLiked.profiles _ rfl (by decide),
   C2_handlers_fire_on_every_save.2.1 false demoAdLiked demoStateLiked.profiles _ rfl (by decide),
   C2_handlers_fire_on_every_save.2.2 demoStateLiked 0 0 ⟨true, "x", "y", none⟩ demoAdLiked _
     rfl rfl rfl rfl (by decide)⟩

/-- C9: an authenticated like on an existing advertisement (whose counters are
the nonnegative values the views maintain) increments the row's `likes` by
exactly 1 but the author's `total_likes` by exactly 2 — once in the post_save
like receiver, whose `likes > 0` guard necessarily holds after the increment,
and once more in the view; symmetrically a dislike adds 2 to `total_dislikes`. -/
theorem C9_like_adds_two_to_totals (s : State) (u : Nat) (pk : Nat)
    (a : Advertisement) (p : UserProfile)
    (hfa : findAdvertisement s.ads pk = some a)
    (hp : findProfile s.profiles a.author = some p)
    (hl0 : 0 ≤ a.likes) (hd0 : 0 ≤ a.dislikes) :
    (∃ s1 q, like_advertisement s (some u) pk = .ok (Response.redirectDetail pk, s1) ∧
      findAdvertisement s1.ads pk = some { a with likes := a.likes + 1 } ∧
      findProfile s1.profiles a.author = some q ∧
      q.total_likes = p.total_likes + 2) ∧
    (∃ s1 q, dislike_advertisement s (some u) pk = .ok (Response.redirectDetail pk, s1) ∧
      findAdvertisement s1.ads pk = some { a with dislikes := a.dislikes + 1 } ∧
      findProfile s1.profiles a.author = some q ∧
      q.total_dislikes = p.total_dislikes + 2) := by
  have hpk : a.pk = pk := pk_of_findAdvertisement hfa
  constructor
  · set updated : Advertisement := { a with likes := a.likes + 1 } with hup
    have hp2 : findProfile s.profiles updated.author = some p := hp
    obtain ⟨qs, q, hok, hfq, hqu, _, hlq, _⟩ :=
      advertisement_post_save_profile false updated s.profiles p hp2
    have hlpos : 0 < updated.likes := by simp [hup]; omega
    have hqk : q.total_likes = p.total_likes + 1 := by simpa [hlpos] using hlq
    refine ⟨{ s with ads := saveAdvertisement s.ads updated, profiles := saveProfile qs { q with total_likes := q.total_likes + 1 } }, { q with total_likes := q.total_likes + 1 }, ?_, ?_, ?_, ?_⟩
    · simp [like_advertisement, hfa, hok, hfq]
    · have := findAdvertisement_save_self (a := updated) (b := a) (by simpa [hpk] using hfa)
      simpa [hpk] using this
    · have hqu2 : q.user = updated.author := user_of_findProfile hfq
      have h2 := findProfile_save_self
        (p := { q with total_likes := q.total_likes + 1 }) (q := q)
        (by simpa [hqu2] using hfq)
      simpa [hqu2] using h2
    · simp [hqk]; omega
  · set updated : Advertisement := { a with dislikes := a.dislikes + 1 } with hup
    have hp2 : findProfile s.profiles updated.author = some p := hp
    obtain ⟨qs, q, hok, hfq, hqu, _, _, hdq⟩ :=
      advertisement_post_save_profile false updated s.profiles p hp2
    have hdpos : 0 < updated.dislikes := by simp [hup]; omega
    have hqk : q.total_dislikes = p.total_dislikes + 1 := by simpa [hdpos] using hdq
    refine ⟨{ s with ads := saveAdvertisement s.ads updated, profiles := saveProfile qs { q with total_dislikes := q.total_dislikes + 1 } }, { q with total_dislikes := q.total_dislikes + 1 }, ?_, ?_, ?_, ?_⟩
    · simp [dislike_advertisement, hfa, hok, hfq]
    · have := findAdvertisement_save_self (a := updated) (b := a) (by simpa [hpk] using hfa)
      simpa [hpk] using this
    · have hqu2 : q.user = updated.author := user_of_findProfile hfq
      have h2 := findProfile_save_self
        (p := { q with total_dislikes := q.total_dislikes + 1 }) (q := q)
        (by simpa [hqu2] using hfq)
      simpa [hqu2] using h2
    · simp [hqk]; omega

/-- Witness for C9 at a concrete input: user 1 liking user 0's advertisement
in the demo database. -/
theorem C9_witness :
    (∃ s1 q, like_advertisement demoState (some 1) 0 = .ok (Response.redirectDetail 0, s1) ∧
      findAdvertisement s1.ads 0 = some { demoAd with likes := demoAd.likes + 1 } ∧
      findProfile s1.profiles demoAd.author = some q ∧
      q.total_likes = (⟨0, 1, 0, 0⟩ : UserProfile).total_likes + 2) ∧
    (∃ s1 q, dislike_advertisement demoState (some 1) 0 = .ok (Response.redirectDetail 0, s1) ∧
      findAdvertisement s1.ads 0 = some { demoAd with dislikes := demoAd.dislikes + 1 } ∧
      findProfile s1.profiles demoAd.author = some q ∧
      q.total_dislikes = (⟨0, 1, 0, 0⟩ : UserProfile).total_dislikes + 2) :=
  C9_like_adds_two_to_totals demoState 1 0 demoAd ⟨0, 1, 0, 0⟩ rfl rfl
    (by decide) (by decide)

/-! ### Uniqueness and decomposition lemmas -/

/-- In a profile table whose `user` keys are pairwise distinct, a user
determines the row. -/
theorem profile_unique {ps : List UserProfile}
    (h : ps.Pairwise (fun p q => p.user ≠ q.user)) {q q2 : UserProfile}
    (hq : q ∈ ps) (hq2 : q2 ∈ ps) (he : q.user = q2.user) : q = q2 := by
  by_contra hne
  have hsym : Symmetric (fun p q : UserProfile => p.user ≠ q.user) :=
    fun x y hxy he2 => hxy he2.symm
  exact List.Pairwise.forall hsym h hq hq2 hne he

/-- In an advertisement table whose primary keys are pairwise distinct, a pk
determines the row. -/
theorem advertisement_unique {ads : List Advertisement}
    (h : ads.Pairwise (fun a b => a.pk ≠ b.pk)) {a b : Advertisement}
    (ha : a ∈ ads) (hb : b ∈ ads) (he : a.pk = b.pk) : a = b := by
  by_contra hne
  have hsym : Symmetric (fun a b : Advertisement => a.pk ≠ b.pk) :=
    fun x y hxy he2 => hxy he2.symm
  exact List.Pairwise.forall hsym h ha hb hne he

/-- Two in-place profile writes to the same user collapse to the second. -/
theorem saveProfile_saveProfile {l : List UserProfile} {p q : UserProfile}
    (h : q.user = p.user) :
    saveProfile (saveProfile l p) q = saveProfile l q := by
  unfold saveProfile
  rw [List.map_map]
  apply List.map_congr_left
  intro x _
  by_cases hx : x.user = p.user <;> simp [Function.comp, hx, h]

/-- Writing back the row that is already in a duplicate-free table is a
no-op. -/
theorem saveProfile_self {ps : List UserProfile} {p : UserProfile}
    (huniq : ps.Pairwise (fun x y => x.user ≠ y.user))
    (hp : findProfile ps p.user = some p) :
    saveProfile ps p = ps := by
  unfold saveProfile
  have : ∀ q ∈ ps, (if q.user = p.user then p else q) = q := by
    intro q hq
    by_cases h : q.user = p.user
    · rw [if_pos h, profile_unique huniq (mem_of_findProfile hp) hq h.symm]
    · rw [if_neg h]
  rw [List.map_congr_left this, List.map_id']

/-- A pk found in a duplicate-free advertisement table splits it into a
prefix, the row, and a suffix, with the pk appearing nowhere else. -/
theorem findAdvertisement_decomp {ads : List Advertisement} {pk : Nat}
    {a : Advertisement}
    (huniq : ads.Pairwise (fun x y => x.pk ≠ y.pk))
    (h : findAdvertisement ads pk = some a) :
    ∃ l1 l2, ads = l1 ++ a :: l2 ∧ (∀ b ∈ l1, b.pk ≠ a.pk) ∧
      (∀ b ∈ l2, b.pk ≠ a.pk) := by
  obtain ⟨l1, l2, rfl⟩ := List.append_of_mem (mem_of_findAdvertisement h)
  rw [List.pairwise_append] at huniq
  obtain ⟨-, h2, h3⟩ := huniq
  rw [List.pairwise_cons] at h2
  exact ⟨l1, l2, rfl, fun b hb => h3 b hb a (List.mem_cons_self a l2),
    fun b hb => (h2.1 b hb).symm⟩

/-- Saving a row with a given pk rewrites exactly the slot holding that pk. -/
theorem saveAdvertisement_decomp {l1 l2 : List Advertisement}
    {a a2 : Advertisement}
    (h1 : ∀ b ∈ l1, b.pk ≠ a.pk) (h2 : ∀ b ∈ l2, b.pk ≠ a.pk)
    (hpk : a2.pk = a.pk) :
    saveAdvertisement (l1 ++ a :: l2) a2 = l1 ++ a2 :: l2 := by
  unfold saveAdvertisement
  rw [List.map_append]
  have e1 : List.map (fun b => if b.pk = a2.pk then a2 else b) l1 = l1 := by
    have hid : ∀ b ∈ l1, (if b.pk = a2.pk then a2 else b) = b := by
      intro b hb
      rw [if_neg (by rw [hpk]; exact h1 b hb)]
    rw [List.map_congr_left hid, List.map_id']
  have e2 : List.map (fun b => if b.pk = a2.pk then a2 else b) l2 = l2 := by
    have hid : ∀ b ∈ l2, (if b.pk = a2.pk then a2 else b) = b := by
      intro b hb
      rw [if_neg (by rw [hpk]; exact h2 b hb)]
    rw [List.map_congr_left hid, List.map_id']
  have e3 : (if a.pk = a2.pk then a2 else a) = a2 := if_pos hpk.symm
  rw [e1, List.map_cons, e3, e2]

/-- Deleting a row with a given pk removes exactly the slot holding it. -/
theorem filter_ne_pk_decomp {l1 l2 : List Advertisement} {a : Advertisement}
    (h1 : ∀ b ∈ l1, b.pk ≠ a.pk) (h2 : ∀ b ∈ l2, b.pk ≠ a.pk) :
    (l1 ++ a :: l2).filter (fun b => b.pk ≠ a.pk) = l1 ++ l2 := by
  rw [List.filter_append, List.filter_cons]
  rw [if_neg (by simp)]
  congr 1
  · exact List.filter_eq_self.mpr (fun b hb => by simp [h1 b hb])
  · exact List.filter_eq_self.mpr (fun b hb => by simp [h2 b hb])

/-- Membership in a profile table after an in-place write. -/
theorem mem_saveProfile {ps : List UserProfile} {p x : UserProfile}
    (hx : x ∈ saveProfile ps p) :
    ∃ y ∈ ps, x = if y.user = p.user then p else y := by
  obtain ⟨y, hy, hxy⟩ := List.mem_map.mp hx
  exact ⟨y, hy, hxy.symm⟩

/-- An in-place profile write keeps the `user` keys pairwise distinct. -/
theorem pairwise_saveProfile {ps : List UserProfile} {p : UserProfile}
    (h : ps.Pairwise (fun x y => x.user ≠ y.user)) :
    (saveProfile ps p).Pairwise (fun x y => x.user ≠ y.user) := by
  unfold saveProfile
  refine List.Pairwise.map _ ?_ h
  intro x y hxy
  by_cases hx : x.user = p.user <;> by_cases hy : y.user = p.user <;>
    simp [hx, hy] at hxy ⊢ <;> omega

/-- An in-place profile write preserves which users have a profile row. -/
theorem has_profile_saveProfile {ps : List UserProfile} {p : UserProfile} {v : Nat}
    (h : ∃ x ∈ ps, x.user = v) :
    ∃ x ∈ saveProfile ps p, x.user = v := by
  obtain ⟨x, hx, hxv⟩ := h
  by_cases hxp : x.user = p.user
  · exact ⟨p, List.mem_map.mpr ⟨x, hx, by rw [if_pos hxp]⟩, by omega⟩
  · exact ⟨x, List.mem_map.mpr ⟨x, hx, by rw [if_neg hxp]⟩, hxv⟩

/-- A user listed in the table has a findable profile row. -/
theorem exists_findProfile {ps : List UserProfile} {u : Nat}
    (h : ∃ p ∈ ps, p.user = u) :
    ∃ p, findProfile ps u = some p ∧ p.user = u ∧ p ∈ ps := by
  have hs : (ps.find? (fun p => p.user = u)).isSome :=
    List.find?_isSome.mpr (by obtain ⟨p, hp, he⟩ := h; exact ⟨p, hp, by simp [he]⟩)
  obtain ⟨p, hp⟩ := Option.isSome_iff_exists.mp hs
  exact ⟨p, hp, user_of_findProfile hp, mem_of_findProfile hp⟩

/-- On a duplicate-free profile table holding the author's row, the post_save
receiver pipeline amounts to one in-place write of the author's row with the
counters moved by the receivers' deltas. -/
theorem advertisement_post_save_save (created : Bool) (inst : Advertisement)
    (ps : List UserProfile) (p : UserProfile)
    (huniq : ps.Pairwise (fun x y => x.user ≠ y.user))
    (hp : findProfile ps inst.author = some p) :
    ∃ q, advertisement_post_save created inst ps = .ok (saveProfile ps q) ∧
      q.user = p.user ∧
      q.advertisements_count = p.advertisements_count + (if created then 1 else 0) ∧
      q.total_likes = p.total_likes + (if 0 < inst.likes then 1 else 0) ∧
      q.total_dislikes = p.total_dislikes + (if 0 < inst.dislikes then 1 else 0) := by
  have hpu : p.user = inst.author := user_of_findProfile hp
  obtain ⟨p1, hps1, hu1, hc1, hl1, hd1⟩ :
      ∃ p1, update_user_statistics_on_create created inst ps = saveProfile ps p1 ∧
        p1.user = p.user ∧
        p1.advertisements_count = p.advertisements_count + (if created then 1 else 0) ∧
        p1.total_likes = p.total_likes ∧ p1.total_dislikes = p.total_dislikes := by
    cases created with
    | false =>
      exact ⟨p, (saveProfile_self huniq (by rw [hpu]; exact hp)).symm, rfl,
        by simp, rfl, rfl⟩
    | true =>
      exact ⟨{ p with advertisements_count := p.advertisements_count + 1 },
        on_create_existing hp, rfl, by simp, rfl, rfl⟩
  have hf1 : findProfile (saveProfile ps p1) inst.author = some p1 := by
    have h2 := findProfile_save_self (p := p1) (q := p) (by rw [hu1, hpu]; exact hp)
    rw [hu1, hpu] at h2
    exact h2
  obtain ⟨p2, hps2, hu2, hc2, hl2, hd2⟩ :
      ∃ p2, update_user_statistics_on_like inst (saveProfile ps p1) = .ok (saveProfile ps p2) ∧
        p2.user = p1.user ∧
        p2.advertisements_count = p1.advertisements_count ∧
        p2.total_likes = p1.total_likes + (if 0 < inst.likes then 1 else 0) ∧
        p2.total_dislikes = p1.total_dislikes := by
    by_cases hl : 0 < inst.likes
    · refine ⟨{ p1 with total_likes := p1.total_likes + 1 }, ?_, rfl, rfl, by simp [hl], rfl⟩
      rw [update_user_statistics_on_like, if_pos hl, hf1]
      exact congrArg Except.ok (saveProfile_saveProfile rfl)
    · exact ⟨p1, by rw [update_user_statistics_on_like, if_neg hl], rfl, rfl,
        by simp [hl], rfl⟩
  have hf2 : findProfile (saveProfile ps p2) inst.author = some p2 := by
    have h2 := findProfile_save_self (p := p2) (q := p) (by rw [hu2, hu1, hpu]; exact hp)
    rw [hu2, hu1, hpu] at h2
    exact h2
  obtain ⟨p3, hps3, hu3, hc3, hl3, hd3⟩ :
      ∃ p3, update_user_statistics_on_dislike inst (saveProfile ps p2) = .ok (saveProfile ps p3) ∧
        p3.user = p2.user ∧
        p3.advertisements_count = p2.advertisements_count ∧
        p3.total_likes = p2.total_likes ∧
        p3.total_dislikes = p2.total_dislikes + (if 0 < inst.dislikes then 1 else 0) := by
    by_cases hd : 0 < inst.dislikes
    · refine ⟨{ p2 with total_dislikes := p2.total_dislikes + 1 }, ?_, rfl, rfl, rfl, by simp [hd]⟩
      rw [update_user_statistics_on_dislike, if_pos hd, hf2]
      exact congrArg Except.ok (saveProfile_saveProfile rfl)
    · exact ⟨p2, by rw [update_user_statistics_on_dislike, if_neg hd], rfl, rfl, rfl,
        by simp [hd]⟩
  refine ⟨p3, ?_, by rw [hu3, hu2, hu1], by rw [hc3, hc2, hc1], by rw [hl3, hl2, hl1], by rw [hd3, hd2, hd1]⟩
  simp [advertisement_post_save, Bind.bind, Except.bind, hps1, hps2, hps3]

/-! ### The reachable-state invariant -/

theorem stateInv_initialState : StateInv initialState := by
  constructor <;> simp [initialState]

theorem signup_preserves_inv {s : State} {m : Method} {f : SignUpForm}
    {r : Response} {s1 : State}
    (hI : StateInv s) (heq : signup s m f = (r, s1)) : StateInv s1 := by
  unfold signup at heq
  by_cases hm : m = Method.POST
  · rw [if_pos hm] at heq
    by_cases hv : (f.valid = true)
    · rw [if_pos hv] at heq
      simp only [Prod.mk.injEq] at heq
      obtain ⟨-, rfl⟩ := heq
      have hfresh : ∀ a ∈ s.ads, a.author ≠ s.nextUserPk := by
        intro a ha
        have := hI.users_lt _ (hI.ads_author_mem a ha)
        omega
      have hempty : adsOf s s.nextUserPk = [] := by
        rw [adsOf, List.filter_eq_nil_iff]
        intro a ha
        simp [hfresh a ha]
      constructor
      · intro u hu
        show u < s.nextUserPk + 1
        rcases List.mem_append.mp hu with h | h
        · have := hI.users_lt u h; omega
        · rw [List.mem_singleton.mp h]; omega
      · intro p hp
        rcases List.mem_append.mp hp with h | h
        · exact List.mem_append.mpr (.inl (hI.profiles_user_mem p h))
        · rw [List.mem_singleton.mp h]
          exact List.mem_append.mpr (.inr (by simp))
      · rw [List.pairwise_append]
        refine ⟨hI.profiles_unique, by simp, ?_⟩
        intro p hp q hq
        rw [List.mem_singleton.mp hq]
        have := hI.users_lt _ (hI.profiles_user_mem p hp)
        simpa using by omega
      · intro u hu
        rcases List.mem_append.mp hu with h | h
        · obtain ⟨p, hp, he⟩ := hI.user_has_profile u h
          exact ⟨p, List.mem_append.mpr (.inl hp), he⟩
        · exact ⟨⟨s.nextUserPk, 0, 0, 0⟩, List.mem_append.mpr (.inr (by simp)),
            by rw [List.mem_singleton.mp h]⟩
      · intro a ha
        exact List.mem_append.mpr (.inl (hI.ads_author_mem a ha))
      · exact hI.ads_pk_lt
      · exact hI.ads_pk_unique
      · exact hI.likes_nonneg
      · exact hI.dislikes_nonneg
      · intro p hp
        rcases List.mem_append.mp hp with h | h
        · exact hI.count_eq p h
        · rw [List.mem_singleton.mp h]
          show (0 : Int) = ((adsOf s s.nextUserPk).length : Int)
          rw [hempty]
          rfl
      · intro p hp
        rcases List.mem_append.mp hp with h | h
        · exact hI.likes_le p h
        · rw [List.mem_singleton.mp h]
          show sumLikes (adsOf s s.nextUserPk) ≤ 0
          rw [hempty]
          simp [sumLikes]
      · intro p hp
        rcases List.mem_append.mp hp with h | h
        · exact hI.dislikes_le p h
        · rw [List.mem_singleton.mp h]
          show sumDislikes (adsOf s s.nextUserPk) ≤ 0
          rw [hempty]
          simp [sumDislikes]
      · exact hI.comments_ad_live
      · intro c hc
        exact List.mem_append.mpr (.inl (hI.comments_author_mem c hc))
    · rw [if_neg hv] at heq
      simp only [Prod.mk.injEq] at heq
      obtain ⟨-, rfl⟩ := heq
      exact hI
  · rw [if_neg hm] at heq
    simp only [Prod.mk.injEq] at heq
    obtain ⟨-, rfl⟩ := heq
    exact hI

theorem add_preserves_inv {s : State} {uo : Option Nat} {m : Method}
    {f : AdvertisementForm} {r : Response} {s1 : State}
    (hI : StateInv s) (hu : ∀ u, uo = some u → u ∈ s.users)
    (heq : add_advertisement s uo m f = .ok (r, s1)) : StateInv s1 := by
  unfold add_advertisement at heq
  cases uo with
  | none =>
    simp only [Except.ok.injEq, Prod.mk.injEq] at heq
    obtain ⟨-, rfl⟩ := heq
    exact hI
  | some u =>
    dsimp only at heq
    have hum : u ∈ s.users := hu u rfl
    by_cases hm : m = Method.POST
    case neg =>
      rw [if_neg hm] at heq
      simp only [Except.ok.injEq, Prod.mk.injEq] at heq
      obtain ⟨-, rfl⟩ := heq
      exact hI
    case pos =>
      rw [if_pos hm] at heq
      by_cases hv : (f.valid = true)
      case neg =>
        rw [if_neg hv] at heq
        simp only [Except.ok.injEq, Prod.mk.injEq] at heq
        obtain ⟨-, rfl⟩ := heq
        exact hI
      case pos =>
        rw [if_pos hv] at heq
        obtain ⟨p, hp, hpu, hpmem⟩ := exists_findProfile (hI.user_has_profile u hum)
        obtain ⟨q, hq, hqu, hqc, hql, hqd⟩ :=
          advertisement_post_save_save true
            ⟨s.nextAdPk, f.title, f.content, u, f.image, 0, 0⟩ s.profiles p
            hI.profiles_unique hp
        rw [hq] at heq
        simp only [Except.ok.injEq, Prod.mk.injEq] at heq
        obtain ⟨-, rfl⟩ := heq
        have hqc2 : q.advertisements_count = p.advertisements_count + 1 := by
          simpa using hqc
        have hql2 : q.total_likes = p.total_likes := by simpa using hql
        have hqd2 : q.total_dislikes = p.total_dislikes := by simpa using hqd
        have hqu2 : q.user = u := by rw [hqu, hpu]
        have hlen : ∀ v : Nat,
            ((s.ads ++ [(⟨s.nextAdPk, f.title, f.content, u, f.image, 0, 0⟩ : Advertisement)]).filter
              (fun b => b.author = v)).length =
            (s.ads.filter (fun b => b.author = v)).length + (if u = v then 1 else 0) := by
          intro v
          rw [List.filter_append, List.length_append]
          by_cases huv : u = v <;> simp [List.filter_cons, huv]
        have hsumL : ∀ v : Nat,
            sumLikes (((s.ads ++ [(⟨s.nextAdPk, f.title, f.content, u, f.image, 0, 0⟩ : Advertisement)]).filter
              (fun b => b.author = v))) =
            sumLikes (s.ads.filter (fun b => b.author = v)) := by
          intro v
          rw [sumLikes, List.filter_append, List.map_append, List.sum_append]
          by_cases huv : u = v <;> simp [List.filter_cons, huv, sumLikes]
        have hsumD : ∀ v : Nat,
            sumDislikes (((s.ads ++ [(⟨s.nextAdPk, f.title, f.content, u, f.image, 0, 0⟩ : Advertisement)]).filter
              (fun b => b.author = v))) =
            sumDislikes (s.ads.filter (fun b => b.author = v)) := by
          intro v
          rw [sumDislikes, List.filter_append, List.map_append, List.sum_append]
          by_cases huv : u = v <;> simp [List.filter_cons, huv, sumDislikes]
        constructor
        · exact hI.users_lt
        · intro x hx
          obtain ⟨y, hy, hxy⟩ := mem_saveProfile hx
          by_cases hy2 : y.user = q.user
          · rw [hxy, if_pos hy2]
            show q.user ∈ s.users
            rw [hqu2]; exact hum
          · rw [hxy, if_neg hy2]
            exact hI.profiles_user_mem y hy
        · exact pairwise_saveProfile hI.profiles_unique
        · intro v hv2
          exact has_profile_saveProfile (hI.user_has_profile v hv2)
        · intro a ha
          rcases List.mem_append.mp ha with h | h
          · exact hI.ads_author_mem a h
          · rw [List.mem_singleton.mp h]; exact hum
        · intro a ha
          show a.pk < s.nextAdPk + 1
          rcases List.mem_append.mp ha with h | h
          · have := hI.ads_pk_lt a h; omega
          · rw [List.mem_singleton.mp h]
            show s.nextAdPk < s.nextAdPk + 1
            omega
        · rw [List.pairwise_append]
          refine ⟨hI.ads_pk_unique, by simp, ?_⟩
          intro a ha b hb
          rw [List.mem_singleton.mp hb]
          show a.pk ≠ s.nextAdPk
          have := hI.ads_pk_lt a ha
          omega
        · intro a ha
          rcases List.mem_append.mp ha with h | h
          · exact hI.likes_nonneg a h
          · rw [List.mem_singleton.mp h]
        · intro a ha
          rcases List.mem_append.mp ha with h | h
          · exact hI.dislikes_nonneg a h
          · rw [List.mem_singleton.mp h]
        · intro x hx
          obtain ⟨y, hy, hxy⟩ := mem_saveProfile hx
          by_cases hy2 : y.user = q.user
          · rw [hxy, if_pos hy2]
            show q.advertisements_count = (((s.ads ++ [(⟨s.nextAdPk, f.title, f.content, u, f.image, 0, 0⟩ : Advertisement)]).filter (fun b => b.author = q.user)).length : Int)
            rw [hqu2, hlen, if_pos rfl, hqc2]
            have := hI.count_eq p hpmem
            rw [adsOf, hpu] at this
            rw [this]
            push_cast
            omega
          · rw [hxy, if_neg hy2]
            show y.advertisements_count = (((s.ads ++ [(⟨s.nextAdPk, f.title, f.content, u, f.image, 0, 0⟩ : Advertisement)]).filter (fun b => b.author = y.user)).length : Int)
            rw [hlen, if_neg (by rw [hqu2] at hy2; exact fun he => hy2 he.symm)]
            have := hI.count_eq y hy
            rw [adsOf] at this
            push_cast
            omega
        · intro x hx
          obtain ⟨y, hy, hxy⟩ := mem_saveProfile hx
          by_cases hy2 : y.user = q.user
          · rw [hxy, if_pos hy2]
            show sumLikes ((s.ads ++ [(⟨s.nextAdPk, f.title, f.content, u, f.image, 0, 0⟩ : Advertisement)]).filter (fun b => b.author = q.user)) ≤ q.total_likes
            rw [hqu2, hsumL, hql2]
            have := hI.likes_le p hpmem
            rw [adsOf, hpu] at this
            exact this
          · rw [hxy, if_neg hy2]
            show sumLikes ((s.ads ++ [(⟨s.nextAdPk, f.title, f.content, u, f.image, 0, 0⟩ : Advertisement)]).filter (fun b => b.author = y.user)) ≤ y.total_likes
            rw [hsumL]
            have := hI.likes_le y hy
            rw [adsOf] at this
            exact this
        · intro x hx
          obtain ⟨y, hy, hxy⟩ := mem_saveProfile hx
          by_cases hy2 : y.user = q.user
          · rw [hxy, if_pos hy2]
            show sumDislikes ((s.ads ++ [(⟨s.nextAdPk, f.title, f.content, u, f.image, 0, 0⟩ : Advertisement)]).filter (fun b => b.author = q.user)) ≤ q.total_dislikes
            rw [hqu2, hsumD, hqd2]
            have := hI.dislikes_le p hpmem
            rw [adsOf, hpu] at this
            exact this
          · rw [hxy, if_neg hy2]
            show sumDislikes ((s.ads ++ [(⟨s.nextAdPk, f.title, f.content, u, f.image, 0, 0⟩ : Advertisement)]).filter (fun b => b.author = y.user)) ≤ y.total_dislikes
            rw [hsumD]
            have := hI.dislikes_le y hy
            rw [adsOf] at this
            exact this
        · intro c hc
          obtain ⟨a, ha, he⟩ := hI.comments_ad_live c hc
          exact ⟨a, List.mem_append.mpr (.inl ha), he⟩
        · exact hI.comments_author_mem

theorem length_filter_author (l1 l2 : List Advertisement) (x : Advertisement) (v : Nat) :
    ((l1 ++ x :: l2).filter (fun b => b.author = v)).length =
      (l1.filter (fun b => b.author = v)).length + (if x.author = v then 1 else 0) +
      (l2.filter (fun b => b.author = v)).length := by
  rw [List.filter_append, List.length_append, List.filter_cons]
  by_cases h : x.author = v <;> simp [h] <;> omega

theorem sumLikes_filter_author (l1 l2 : List Advertisement) (x : Advertisement) (v : Nat) :
    sumLikes ((l1 ++ x :: l2).filter (fun b => b.author = v)) =
      sumLikes (l1.filter (fun b => b.author = v)) + (if x.author = v then x.likes else 0) +
      sumLikes (l2.filter (fun b => b.author = v)) := by
  rw [sumLikes, List.filter_append, List.map_append, List.sum_append, List.filter_cons]
  by_cases h : x.author = v <;> simp [h, sumLikes] <;> ring

theorem sumDislikes_filter_author (l1 l2 : List Advertisement) (x : Advertisement) (v : Nat) :
    sumDislikes ((l1 ++ x :: l2).filter (fun b => b.author = v)) =
      sumDislikes (l1.filter (fun b => b.author = v)) + (if x.author = v then x.dislikes else 0) +
      sumDislikes (l2.filter (fun b => b.author = v)) := by
  rw [sumDislikes, List.filter_append, List.map_append, List.sum_append, List.filter_cons]
  by_cases h : x.author = v <;> simp [h, sumDislikes] <;> ring

/-- Rebuilding the state with a new advertisement table, a new comment table
and one in-place profile write preserves the invariant, provided the new
tables satisfy the key constraints and the per-author aggregates move by at
most the written profile's counter deltas. -/
theorem stateInv_mk_save {s : State} (hI : StateInv s)
    {A1 : List Advertisement} {C1 : List Comment} {p q : UserProfile}
    (hpmem : p ∈ s.profiles) (hqu : q.user = p.user)
    (hauthors : ∀ a ∈ A1, a.author ∈ s.users)
    (hpks : ∀ a ∈ A1, a.pk < s.nextAdPk)
    (huniq : A1.Pairwise (fun a b => a.pk ≠ b.pk))
    (hlnn : ∀ a ∈ A1, 0 ≤ a.likes) (hdnn : ∀ a ∈ A1, 0 ≤ a.dislikes)
    (hlen : ∀ v, ((A1.filter (fun b => b.author = v)).length : Int) =
      ((s.ads.filter (fun b => b.author = v)).length : Int) +
      (if p.user = v then q.advertisements_count - p.advertisements_count else 0))
    (hsumL : ∀ v, sumLikes (A1.filter (fun b => b.author = v)) ≤
      sumLikes (s.ads.filter (fun b => b.author = v)) +
      (if p.user = v then q.total_likes - p.total_likes else 0))
    (hsumD : ∀ v, sumDislikes (A1.filter (fun b => b.author = v)) ≤
      sumDislikes (s.ads.filter (fun b => b.author = v)) +
      (if p.user = v then q.total_dislikes - p.total_dislikes else 0))
    (hcomm_live : ∀ c ∈ C1, ∃ a ∈ A1, a.pk = c.advertisement)
    (hcomm_auth : ∀ c ∈ C1, c.author ∈ s.users) :
    StateInv { s with ads := A1, profiles := saveProfile s.profiles q, comments := C1 } := by
  constructor
  · exact hI.users_lt
  · intro x hx
    obtain ⟨y, hy, hxy⟩ := mem_saveProfile hx
    by_cases hy2 : y.user = q.user
    · rw [hxy, if_pos hy2]
      show q.user ∈ s.users
      rw [hqu]
      exact hI.profiles_user_mem p hpmem
    · rw [hxy, if_neg hy2]
      exact hI.profiles_user_mem y hy
  · exact pairwise_saveProfile hI.profiles_unique
  · intro v hv2
    exact has_profile_saveProfile (hI.user_has_profile v hv2)
  · exact hauthors
  · exact hpks
  · exact huniq
  · exact hlnn
  · exact hdnn
  · intro x hx
    obtain ⟨y, hy, hxy⟩ := mem_saveProfile hx
    by_cases hy2 : y.user = q.user
    · rw [hxy, if_pos hy2]
      show q.advertisements_count = ((A1.filter (fun b => b.author = q.user)).length : Int)
      rw [hqu]
      have h1 := hlen p.user
      rw [if_pos rfl] at h1
      have h2 := hI.count_eq p hpmem
      rw [adsOf] at h2
      omega
    · rw [hxy, if_neg hy2]
      show y.advertisements_count = ((A1.filter (fun b => b.author = y.user)).length : Int)
      have h1 := hlen y.user
      rw [if_neg (fun he => hy2 (by rw [hqu]; exact he.symm))] at h1
      have h2 := hI.count_eq y hy
      rw [adsOf] at h2
      omega
  · intro x hx
    obtain ⟨y, hy, hxy⟩ := mem_saveProfile hx
    by_cases hy2 : y.user = q.user
    · rw [hxy, if_pos hy2]
      show sumLikes (A1.filter (fun b => b.author = q.user)) ≤ q.total_likes
      rw [hqu]
      have h1 := hsumL p.user
      rw [if_pos rfl] at h1
      have h2 := hI.likes_le p hpmem
      rw [adsOf] at h2
      omega
    · rw [hxy, if_neg hy2]
      show sumLikes (A1.filter (fun b => b.author = y.user)) ≤ y.total_likes
      have h1 := hsumL y.user
      rw [if_neg (fun he => hy2 (by rw [hqu]; exact he.symm))] at h1
      have h2 := hI.likes_le y hy
      rw [adsOf] at h2
      omega
  · intro x hx
    obtain ⟨y, hy, hxy⟩ := mem_saveProfile hx
    by_cases hy2 : y.user = q.user
    · rw [hxy, if_pos hy2]
      show sumDislikes (A1.filter (fun b => b.author = q.user)) ≤ q.total_dislikes
      rw [hqu]
      have h1 := hsumD p.user
      rw [if_pos rfl] at h1
      have h2 := hI.dislikes_le p hpmem
      rw [adsOf] at h2
      omega
    · rw [hxy, if_neg hy2]
      show sumDislikes (A1.filter (fun b => b.author = y.user)) ≤ y.total_dislikes
      have h1 := hsumD y.user
      rw [if_neg (fun he => hy2 (by rw [hqu]; exact he.symm))] at h1
      have h2 := hI.dislikes_le y hy
      rw [adsOf] at h2
      omega
  · exact hcomm_live
  · exact hcomm_auth

theorem edit_preserves_inv {s : State} {uo : Option Nat} {m : Method}
    {pk2 : Nat} {f : AdvertisementForm} {r : Response} {s1 : State}
    (hI : StateInv s) (heq : edit_advertisement s uo m pk2 f = .ok (r, s1)) :
    StateInv s1 := by
  unfold edit_advertisement at heq
  cases uo with
  | none =>
    simp only [Except.ok.injEq, Prod.mk.injEq] at heq
    obtain ⟨-, rfl⟩ := heq
    exact hI
  | some u =>
    dsimp only at heq
    cases hfa : findAdvertisement s.ads pk2 with
    | none =>
      rw [hfa] at heq
      simp only [Except.ok.injEq, Prod.mk.injEq] at heq
      obtain ⟨-, rfl⟩ := heq
      exact hI
    | some a =>
      rw [hfa] at heq
      dsimp only at heq
      by_cases hau : a.author ≠ u
      · rw [if_pos hau] at heq
        simp only [Except.ok.injEq, Prod.mk.injEq] at heq
        obtain ⟨-, rfl⟩ := heq
        exact hI
      · rw [if_neg hau] at heq
        by_cases hm : m = Method.POST
        case neg =>
          rw [if_neg hm] at heq
          simp only [Except.ok.injEq, Prod.mk.injEq] at heq
          obtain ⟨-, rfl⟩ := heq
          exact hI
        case pos =>
          rw [if_pos hm] at heq
          by_cases hv : f.valid = true
          case neg =>
            rw [if_neg hv] at heq
            simp only [Except.ok.injEq, Prod.mk.injEq] at heq
            obtain ⟨-, rfl⟩ := heq
            exact hI
          case pos =>
            rw [if_pos hv] at heq
            have hamem : a ∈ s.ads := mem_of_findAdvertisement hfa
            obtain ⟨p, hp, hpu, hpmem⟩ :=
              exists_findProfile (hI.user_has_profile _ (hI.ads_author_mem a hamem))
            obtain ⟨q, hq, hqu, hqc, hql, hqd⟩ :=
              advertisement_post_save_save false
                ⟨a.pk, f.title, f.content, a.author, f.image, a.likes, a.dislikes⟩
                s.profiles p hI.profiles_unique hp
            rw [hq] at heq
            simp only [Except.ok.injEq, Prod.mk.injEq] at heq
            obtain ⟨-, rfl⟩ := heq
            obtain ⟨l1, l2, hdec, h1, h2⟩ :=
              findAdvertisement_decomp hI.ads_pk_unique hfa
            have hsave : saveAdvertisement s.ads
                (⟨a.pk, f.title, f.content, a.author, f.image, a.likes, a.dislikes⟩ : Advertisement) =
                l1 ++ (⟨a.pk, f.title, f.content, a.author, f.image, a.likes, a.dislikes⟩ : Advertisement) :: l2 := by
              rw [hdec]
              exact saveAdvertisement_decomp h1 h2 rfl
            rw [hsave]
            have hqc2 : q.advertisements_count = p.advertisements_count := by simpa using hqc
            have hmem1 : ∀ b ∈ l1, b ∈ s.ads := by
              intro b hb
              rw [hdec]
              exact List.mem_append.mpr (.inl hb)
            have hmem2 : ∀ b ∈ l2, b ∈ s.ads := by
              intro b hb
              rw [hdec]
              exact List.mem_append.mpr (.inr (List.mem_cons.mpr (.inr hb)))
            refine stateInv_mk_save hI hpmem hqu ?_ ?_ ?_ ?_ ?_ ?_ ?_ ?_ ?_ hI.comments_author_mem
            · intro b hb
              rcases List.mem_append.mp hb with h | h
              · exact hI.ads_author_mem b (hmem1 b h)
              · rcases List.mem_cons.mp h with h | h
                · rw [h]
                  exact hI.ads_author_mem a hamem
                · exact hI.ads_author_mem b (hmem2 b h)
            · intro b hb
              rcases List.mem_append.mp hb with h | h
              · exact hI.ads_pk_lt b (hmem1 b h)
              · rcases List.mem_cons.mp h with h | h
                · rw [h]
                  exact hI.ads_pk_lt a hamem
                · exact hI.ads_pk_lt b (hmem2 b h)
            · have hPU := hI.ads_pk_unique
              rw [hdec, List.pairwise_append, List.pairwise_cons] at hPU
              obtain ⟨hu1, ⟨hcons, hu2⟩, hcross⟩ := hPU
              rw [List.pairwise_append, List.pairwise_cons]
              refine ⟨hu1, ⟨fun b hb => hcons b hb, hu2⟩, ?_⟩
              intro x hx y hy
              rcases List.mem_cons.mp hy with h | h
              · rw [h]
                exact hcross x hx a (List.mem_cons_self a l2)
              · exact hcross x hx y (List.mem_cons.mpr (.inr h))
            · intro b hb
              rcases List.mem_append.mp hb with h | h
              · exact hI.likes_nonneg b (hmem1 b h)
              · rcases List.mem_cons.mp h with h | h
                · rw [h]
                  exact hI.likes_nonneg a hamem
                · exact hI.likes_nonneg b (hmem2 b h)
            · intro b hb
              rcases List.mem_append.mp hb with h | h
              · exact hI.dislikes_nonneg b (hmem1 b h)
              · rcases List.mem_cons.mp h with h | h
                · rw [h]
                  exact hI.dislikes_nonneg a hamem
                · exact hI.dislikes_nonneg b (hmem2 b h)
            · intro v
              rw [hdec, length_filter_author, length_filter_author, hpu]
              by_cases hav : a.author = v <;> simp [hav, hqc2]
            · intro v
              rw [hdec, sumLikes_filter_author, sumLikes_filter_author, hpu]
              have hd1 : (0 : Int) ≤ q.total_likes - p.total_likes := by
                rw [hql]
                by_cases hl : (0 : Int) < a.likes <;> simp [hl]
              by_cases hav : a.author = v <;> simp [hav] <;> omega
            · intro v
              rw [hdec, sumDislikes_filter_author, sumDislikes_filter_author, hpu]
              have hd1 : (0 : Int) ≤ q.total_dislikes - p.total_dislikes := by
                rw [hqd]
                by_cases hl : (0 : Int) < a.dislikes <;> simp [hl]
              by_cases hav : a.author = v <;> simp [hav] <;> omega
            · intro c hc
              obtain ⟨b, hb, he⟩ := hI.comments_ad_live c hc
              rw [hdec] at hb
              rcases List.mem_append.mp hb with h | h
              · exact ⟨b, List.mem_append.mpr (.inl h), he⟩
              · rcases List.mem_cons.mp h with h | h
                · refine ⟨⟨a.pk, f.title, f.content, a.author, f.image, a.likes, a.dislikes⟩, List.mem_append.mpr (.inr (List.mem_cons_self _ _)), ?_⟩
                  rw [← he, h]
                · exact ⟨b, List.mem_append.mpr (.inr (List.mem_cons.mpr (.inr h))), he⟩

theorem delete_preserves_inv {s : State} {uo : Option Nat} {m : Method}
    {pk2 : Nat} {r : Response} {s1 : State}
    (hI : StateInv s) (heq : delete_advertisement s uo m pk2 = .ok (r, s1)) :
    StateInv s1 := by
  unfold delete_advertisement at heq
  cases uo with
  | none =>
    simp only [Except.ok.injEq, Prod.mk.injEq] at heq
    obtain ⟨-, rfl⟩ := heq
    exact hI
  | some u =>
    dsimp only at heq
    cases hfa : findAdvertisement s.ads pk2 with
    | none =>
      rw [hfa] at heq
      simp only [Except.ok.injEq, Prod.mk.injEq] at heq
      obtain ⟨-, rfl⟩ := heq
      exact hI
    | some a =>
      rw [hfa] at heq
      dsimp only at heq
      by_cases hau : a.author ≠ u
      · rw [if_pos hau] at heq
        simp only [Except.ok.injEq, Prod.mk.injEq] at heq
        obtain ⟨-, rfl⟩ := heq
        exact hI
      · rw [if_neg hau] at heq
        by_cases hm : m = Method.POST
        case neg =>
          rw [if_neg hm] at heq
          simp only [Except.ok.injEq, Prod.mk.injEq] at heq
          obtain ⟨-, rfl⟩ := heq
          exact hI
        case pos =>
          rw [if_pos hm] at heq
          have hamem : a ∈ s.ads := mem_of_findAdvertisement hfa
          obtain ⟨p, hp, hpu, hpmem⟩ :=
            exists_findProfile (hI.user_has_profile _ (hI.ads_author_mem a hamem))
          rw [update_user_statistics_on_delete, hp] at heq
          simp only [Except.ok.injEq, Prod.mk.injEq] at heq
          obtain ⟨-, rfl⟩ := heq
          have hpk : a.pk = pk2 := pk_of_findAdvertisement hfa
          subst hpk
          obtain ⟨l1, l2, hdec, h1, h2⟩ :=
            findAdvertisement_decomp hI.ads_pk_unique hfa
          have hfilter : s.ads.filter (fun b => b.pk ≠ a.pk) = l1 ++ l2 := by
            rw [hdec]
            exact filter_ne_pk_decomp h1 h2
          rw [hfilter]
          have hmem1 : ∀ b ∈ l1, b ∈ s.ads := by
            intro b hb
            rw [hdec]
            exact List.mem_append.mpr (.inl hb)
          have hmem2 : ∀ b ∈ l2, b ∈ s.ads := by
            intro b hb
            rw [hdec]
            exact List.mem_append.mpr (.inr (List.mem_cons.mpr (.inr hb)))
          have hmem12 : ∀ b ∈ l1 ++ l2, b ∈ s.ads := by
            intro b hb
            rcases List.mem_append.mp hb with h | h
            · exact hmem1 b h
            · exact hmem2 b h
          refine stateInv_mk_save hI hpmem rfl ?_ ?_ ?_ ?_ ?_ ?_ ?_ ?_ ?_ ?_
          · intro b hb
            exact hI.ads_author_mem b (hmem12 b hb)
          · intro b hb
            exact hI.ads_pk_lt b (hmem12 b hb)
          · have hPU := hI.ads_pk_unique
            rw [hdec, List.pairwise_append, List.pairwise_cons] at hPU
            obtain ⟨hu1, ⟨-, hu2⟩, hcross⟩ := hPU
            rw [List.pairwise_append]
            exact ⟨hu1, hu2, fun x hx y hy => hcross x hx y (List.mem_cons.mpr (.inr hy))⟩
          · intro b hb
            exact hI.likes_nonneg b (hmem12 b hb)
          · intro b hb
            exact hI.dislikes_nonneg b (hmem12 b hb)
          · intro v
            rw [hdec, length_filter_author, List.filter_append, List.length_append, hpu]
            by_cases hav : a.author = v <;> simp [hav] <;> push_cast <;> omega
          · intro v
            have hsplit : sumLikes ((l1 ++ l2).filter (fun b => b.author = v)) =
                sumLikes (l1.filter (fun b => b.author = v)) +
                sumLikes (l2.filter (fun b => b.author = v)) := by
              rw [sumLikes, List.filter_append, List.map_append, List.sum_append]
              rfl
            rw [hdec, sumLikes_filter_author, hsplit, hpu]
            have hnn := hI.likes_nonneg a hamem
            by_cases hav : a.author = v <;> simp [hav] <;> omega
          · intro v
            have hsplit : sumDislikes ((l1 ++ l2).filter (fun b => b.author = v)) =
                sumDislikes (l1.filter (fun b => b.author = v)) +
                sumDislikes (l2.filter (fun b => b.author = v)) := by
              rw [sumDislikes, List.filter_append, List.map_append, List.sum_append]
              rfl
            rw [hdec, sumDislikes_filter_author, hsplit, hpu]
            have hnn := hI.dislikes_nonneg a hamem
            by_cases hav : a.author = v <;> simp [hav] <;> omega
          · intro c hc
            rw [List.mem_filter] at hc
            obtain ⟨hcmem, hcpk⟩ := hc
            obtain ⟨b, hb, he⟩ := hI.comments_ad_live c hcmem
            rw [hdec] at hb
            rcases List.mem_append.mp hb with h | h
            · exact ⟨b, List.mem_append.mpr (.inl h), he⟩
            · rcases List.mem_cons.mp h with h | h
              · exfalso
                rw [h] at he
                rw [← he] at hcpk
                simp at hcpk
              · exact ⟨b, List.mem_append.mpr (.inr h), he⟩
          · intro c hc
            rw [List.mem_filter] at hc
            exact hI.comments_author_mem c hc.1

theorem like_preserves_inv {s : State} {uo : Option Nat} {pk2 : Nat}
    {r : Response} {s1 : State}
    (hI : StateInv s) (heq : like_advertisement s uo pk2 = .ok (r, s1)) :
    StateInv s1 := by
  unfold like_advertisement at heq
  cases uo with
  | none =>
    simp only [Except.ok.injEq, Prod.mk.injEq] at heq
    obtain ⟨-, rfl⟩ := heq
    exact hI
  | some u =>
    dsimp only at heq
    cases hfa : findAdvertisement s.ads pk2 with
    | none =>
      rw [hfa] at heq
      simp only [Except.ok.injEq, Prod.mk.injEq] at heq
      obtain ⟨-, rfl⟩ := heq
      exact hI
    | some a =>
      rw [hfa] at heq
      dsimp only at heq
      have hamem : a ∈ s.ads := mem_of_findAdvertisement hfa
      obtain ⟨p, hp, hpu, hpmem⟩ :=
        exists_findProfile (hI.user_has_profile _ (hI.ads_author_mem a hamem))
      obtain ⟨q, hq, hqu, hqc, hql, hqd⟩ :=
        advertisement_post_save_save false
          ⟨a.pk, a.title, a.content, a.author, a.image, a.likes + 1, a.dislikes⟩
          s.profiles p hI.profiles_unique hp
      rw [hq] at heq
      dsimp only at heq
      have hfq : findProfile (saveProfile s.profiles q) a.author = some q := by
        have h2 := findProfile_save_self (p := q) (q := p)
          (by rw [hqu, hpu]; exact hp)
        rw [hqu, hpu] at h2
        exact h2
      rw [hfq] at heq
      simp only [Except.ok.injEq, Prod.mk.injEq] at heq
      obtain ⟨-, rfl⟩ := heq
      rw [saveProfile_saveProfile (l := s.profiles) (p := q)
        (q := { q with total_likes := q.total_likes + 1 }) rfl]
      have hpk : a.pk = pk2 := pk_of_findAdvertisement hfa
      subst hpk
      obtain ⟨l1, l2, hdec, h1, h2⟩ :=
        findAdvertisement_decomp hI.ads_pk_unique hfa
      have hsave : saveAdvertisement s.ads
          (⟨a.pk, a.title, a.content, a.author, a.image, a.likes + 1, a.dislikes⟩ : Advertisement) =
          l1 ++ (⟨a.pk, a.title, a.content, a.author, a.image, a.likes + 1, a.dislikes⟩ : Advertisement) :: l2 := by
        rw [hdec]
        exact saveAdvertisement_decomp h1 h2 rfl
      rw [hsave]
      have hqc2 : q.advertisements_count = p.advertisements_count := by simpa using hqc
      have hmem1 : ∀ b ∈ l1, b ∈ s.ads := by
        intro b hb
        rw [hdec]
        exact List.mem_append.mpr (.inl hb)
      have hmem2 : ∀ b ∈ l2, b ∈ s.ads := by
        intro b hb
        rw [hdec]
        exact List.mem_append.mpr (.inr (List.mem_cons.mpr (.inr hb)))
      refine stateInv_mk_save hI hpmem (show _ = p.user from hqu) ?_ ?_ ?_ ?_ ?_ ?_ ?_ ?_ ?_ hI.comments_author_mem
      · intro b hb
        rcases List.mem_append.mp hb with h | h
        · exact hI.ads_author_mem b (hmem1 b h)
        · rcases List.mem_cons.mp h with h | h
          · rw [h]
            exact hI.ads_author_mem a hamem
          · exact hI.ads_author_mem b (hmem2 b h)
      · intro b hb
        rcases List.mem_append.mp hb with h | h
        · exact hI.ads_pk_lt b (hmem1 b h)
        · rcases List.mem_cons.mp h with h | h
          · rw [h]
            exact hI.ads_pk_lt a hamem
          · exact hI.ads_pk_lt b (hmem2 b h)
      · have hPU := hI.ads_pk_unique
        rw [hdec, List.pairwise_append, List.pairwise_cons] at hPU
        obtain ⟨hu1, ⟨hcons, hu2⟩, hcross⟩ := hPU
        rw [List.pairwise_append, List.pairwise_cons]
        refine ⟨hu1, ⟨fun b hb => hcons b hb, hu2⟩, ?_⟩
        intro x hx y hy
        rcases List.mem_cons.mp hy with h | h
        · rw [h]
          exact hcross x hx a (List.mem_cons_self a l2)
        · exact hcross x hx y (List.mem_cons.mpr (.inr h))
      · intro b hb
        rcases List.mem_append.mp hb with h | h
        · exact hI.likes_nonneg b (hmem1 b h)
        · rcases List.mem_cons.mp h with h | h
          · rw [h]
            show (0 : Int) ≤ a.likes + 1
            have := hI.likes_nonneg a hamem
            omega
          · exact hI.likes_nonneg b (hmem2 b h)
      · intro b hb
        rcases List.mem_append.mp hb with h | h
        · exact hI.dislikes_nonneg b (hmem1 b h)
        · rcases List.mem_cons.mp h with h | h
          · rw [h]
            exact hI.dislikes_nonneg a hamem
          · exact hI.dislikes_nonneg b (hmem2 b h)
      · intro v
        rw [hdec, length_filter_author, length_filter_author, hpu]
        by_cases hav : a.author = v <;> simp [hav, hqc2]
      · intro v
        rw [hdec, sumLikes_filter_author, sumLikes_filter_author, hpu]
        have hd1 : (1 : Int) ≤ q.total_likes + 1 - p.total_likes := by
          rw [hql]
          by_cases hl : (0 : Int) < a.likes + 1 <;> simp [hl] <;> omega
        by_cases hav : a.author = v <;> simp [hav] <;> omega
      · intro v
        rw [hdec, sumDislikes_filter_author, sumDislikes_filter_author, hpu]
        have hd1 : (0 : Int) ≤ q.total_dislikes - p.total_dislikes := by
          rw [hqd]
          by_cases hl : (0 : Int) < a.dislikes <;> simp [hl]
        by_cases hav : a.author = v <;> simp [hav] <;> omega
      · intro c hc
        obtain ⟨b, hb, he⟩ := hI.comments_ad_live c hc
        rw [hdec] at hb
        rcases List.mem_append.mp hb with h | h
        · exact ⟨b, List.mem_append.mpr (.inl h), he⟩
        · rcases List.mem_cons.mp h with h | h
          · refine ⟨⟨a.pk, a.title, a.content, a.author, a.image, a.likes + 1, a.dislikes⟩, List.mem_append.mpr (.inr (List.mem_cons_self _ _)), ?_⟩
            rw [← he, h]
          · exact ⟨b, List.mem_append.mpr (.inr (List.mem_cons.mpr (.inr h))), he⟩

theorem dislike_preserves_inv {s : State} {uo : Option Nat} {pk2 : Nat}
    {r : Response} {s1 : State}
    (hI : StateInv s) (heq : dislike_advertisement s uo pk2 = .ok (r, s1)) :
    StateInv s1 := by
  unfold dislike_advertisement at heq
  cases uo with
  | none =>
    simp only [Except.ok.injEq, Prod.mk.injEq] at heq
    obtain ⟨-, rfl⟩ := heq
    exact hI
  | some u =>
    dsimp only at heq
    cases hfa : findAdvertisement s.ads pk2 with
    | none =>
      rw [hfa] at heq
      simp only [Except.ok.injEq, Prod.mk.injEq] at heq
      obtain ⟨-, rfl⟩ := heq
      exact hI
    | some a =>
      rw [hfa] at heq
      dsimp only at heq
      have hamem : a ∈ s.ads := mem_of_findAdvertisement hfa
      obtain ⟨p, hp, hpu, hpmem⟩ :=
        exists_findProfile (hI.user_has_profile _ (hI.ads_author_mem a hamem))
      obtain ⟨q, hq, hqu, hqc, hql, hqd⟩ :=
        advertisement_post_save_save false
          ⟨a.pk, a.title, a.content, a.author, a.image, a.likes, a.dislikes + 1⟩
          s.profiles p hI.profiles_unique hp
      rw [hq] at heq
      dsimp only at heq
      have hfq : findProfile (saveProfile s.profiles q) a.author = some q := by
        have h2 := findProfile_save_self (p := q) (q := p)
          (by rw [hqu, hpu]; exact hp)
        rw [hqu, hpu] at h2
        exact h2
      rw [hfq] at heq
      simp only [Except.ok.injEq, Prod.mk.injEq] at heq
      obtain ⟨-, rfl⟩ := heq
      rw [saveProfile_saveProfile (l := s.profiles) (p := q)
        (q := { q with total_dislikes := q.total_dislikes + 1 }) rfl]
      have hpk : a.pk = pk2 := pk_of_findAdvertisement hfa
      subst hpk
      obtain ⟨l1, l2, hdec, h1, h2⟩ :=
        findAdvertisement_decomp hI.ads_pk_unique hfa
      have hsave : saveAdvertisement s.ads
          (⟨a.pk, a.title, a.content, a.author, a.image, a.likes, a.dislikes + 1⟩ : Advertisement) =
          l1 ++ (⟨a.pk, a.title, a.content, a.author, a.image, a.likes, a.dislikes + 1⟩ : Advertisement) :: l2 := by
        rw [hdec]
        exact saveAdvertisement_decomp h1 h2 rfl
      rw [hsave]
      have hqc2 : q.advertisements_count = p.advertisements_count := by simpa using hqc
      have hmem1 : ∀ b ∈ l1, b ∈ s.ads := by
        intro b hb
        rw [hdec]
        exact List.mem_append.mpr (.inl hb)
      have hmem2 : ∀ b ∈ l2, b ∈ s.ads := by
        intro b hb
        rw [hdec]
        exact List.mem_append.mpr (.inr (List.mem_cons.mpr (.inr hb)))
      refine stateInv_mk_save hI hpmem (show _ = p.user from hqu) ?_ ?_ ?_ ?_ ?_ ?_ ?_ ?_ ?_ hI.comments_author_mem
      · intro b hb
        rcases List.mem_append.mp hb with h | h
        · exact hI.ads_author_mem b (hmem1 b h)
        · rcases List.mem_cons.mp h with h | h
          · rw [h]
            exact hI.ads_author_mem a hamem
          · exact hI.ads_author_mem b (hmem2 b h)
      · intro b hb
        rcases List.mem_append.mp hb with h | h
        · exact hI.ads_pk_lt b (hmem1 b h)
        · rcases List.mem_cons.mp h with h | h
          · rw [h]
            exact hI.ads_pk_lt a hamem
          · exact hI.ads_pk_lt b (hmem2 b h)
      · have hPU := hI.ads_pk_unique
        rw [hdec, List.pairwise_append, List.pairwise_cons] at hPU
        obtain ⟨hu1, ⟨hcons, hu2⟩, hcross⟩ := hPU
        rw [List.pairwise_append, List.pairwise_cons]
        refine ⟨hu1, ⟨fun b hb => hcons b hb, hu2⟩, ?_⟩
        intro x hx y hy
        rcases List.mem_cons.mp hy with h | h
        · rw [h]
          exact hcross x hx a (List.mem_cons_self a l2)
        · exact hcross x hx y (List.mem_cons.mpr (.inr h))
      · intro b hb
        rcases List.mem_append.mp hb with h | h
        · exact hI.likes_nonneg b (hmem1 b h)
        · rcases List.mem_cons.mp h with h | h
          · rw [h]
            exact hI.likes_nonneg a hamem
          · exact hI.likes_nonneg b (hmem2 b h)
      · intro b hb
        rcases List.mem_append.mp hb with h | h
        · exact hI.dislikes_nonneg b (hmem1 b h)
        · rcases List.mem_cons.mp h with h | h
          · rw [h]
            show (0 : Int) ≤ a.dislikes + 1
            have := hI.dislikes_nonneg a hamem
            omega
          · exact hI.dislikes_nonneg b (hmem2 b h)
      · intro v
        rw [hdec, length_filter_author, length_filter_author, hpu]
        by_cases hav : a.author = v <;> simp [hav, hqc2]
      · intro v
        rw [hdec, sumLikes_filter_author, sumLikes_filter_author, hpu]
        have hd1 : (0 : Int) ≤ q.total_likes - p.total_likes := by
          rw [hql]
          by_cases hl : (0 : Int) < a.likes <;> simp [hl]
        by_cases hav : a.author = v <;> simp [hav] <;> omega
      · intro v
        rw [hdec, sumDislikes_filter_author, sumDislikes_filter_author, hpu]
        have hd1 : (1 : Int) ≤ q.total_dislikes + 1 - p.total_dislikes := by
          rw [hqd]
          by_cases hl : (0 : Int) < a.dislikes + 1 <;> simp [hl] <;> omega
        by_cases hav : a.author = v <;> simp [hav] <;> omega
      · intro c hc
        obtain ⟨b, hb, he⟩ := hI.comments_ad_live c hc
        rw [hdec] at hb
        rcases List.mem_append.mp hb with h | h
        · exact ⟨b, List.mem_append.mpr (.inl h), he⟩
        · rcases List.mem_cons.mp h with h | h
          · refine ⟨⟨a.pk, a.title, a.content, a.author, a.image, a.likes, a.dislikes + 1⟩, List.mem_append.mpr (.inr (List.mem_cons_self _ _)), ?_⟩
            rw [← he, h]
          · exact ⟨b, List.mem_append.mpr (.inr (List.mem_cons.mpr (.inr h))), he⟩

theorem comment_preserves_inv {s : State} {u pk2 : Nat} {c2 : String} {s1 : State}
    (hI : StateInv s) (heq : add_comment s u pk2 c2 = some s1) : StateInv s1 := by
  unfold add_comment at heq
  by_cases hc : u ∈ s.users ∧ (findAdvertisement s.ads pk2).isSome
  · rw [if_pos hc] at heq
    obtain ⟨rfl⟩ := heq
    obtain ⟨hcu, hcad⟩ := hc
    constructor
    · exact hI.users_lt
    · exact hI.profiles_user_mem
    · exact hI.profiles_unique
    · exact hI.user_has_profile
    · exact hI.ads_author_mem
    · exact hI.ads_pk_lt
    · exact hI.ads_pk_unique
    · exact hI.likes_nonneg
    · exact hI.dislikes_nonneg
    · exact hI.count_eq
    · exact hI.likes_le
    · exact hI.dislikes_le
    · intro c hcm
      rcases List.mem_append.mp hcm with h | h
      · exact hI.comments_ad_live c h
      · rw [List.mem_singleton.mp h]
        obtain ⟨a, ha⟩ := Option.isSome_iff_exists.mp hcad
        exact ⟨a, mem_of_findAdvertisement ha, pk_of_findAdvertisement ha⟩
    · intro c hcm
      rcases List.mem_append.mp hcm with h | h
      · exact hI.comments_author_mem c h
      · rw [List.mem_singleton.mp h]
        exact hcu
  · rw [if_neg hc] at heq
    cases heq

/-- Every state reachable through the application's views satisfies the
invariant. -/
theorem reachable_inv {s : State} (h : Reachable s) : StateInv s := by
  induction h with
  | init => exact stateInv_initialState
  | signup_step h heq ih => exact signup_preserves_inv ih heq
  | add_step h hu heq ih => exact add_preserves_inv ih hu heq
  | edit_step h hu heq ih => exact edit_preserves_inv ih heq
  | delete_step h hu heq ih => exact delete_preserves_inv ih heq
  | like_step h hu heq ih => exact like_preserves_inv ih heq
  | dislike_step h hu heq ih => exact dislike_preserves_inv ih heq
  | comment_step h heq ih => exact comment_preserves_inv ih heq

theorem signupState_reachable : Reachable signupState :=
  Reachable.signup_step Reachable.init
    (show signup initialState Method.POST ⟨true⟩ =
      (Response.redirectBoard, signupState) from rfl)

theorem addState_reachable : Reachable addState :=
  Reachable.add_step signupState_reachable
    (fun u h => by cases h; exact List.mem_singleton.mpr rfl)
    (show add_advertisement signupState (some 0) Method.POST ⟨true, "t", "c", none⟩ =
      .ok (Response.redirectList, addState) from rfl)

theorem likedState_reachable : Reachable likedState :=
  Reachable.like_step addState_reachable
    (fun u h => by cases h; exact List.mem_singleton.mpr rfl)
    (show like_advertisement addState (some 0) 0 =
      .ok (Response.redirectDetail 0, likedState) from rfl)

theorem commentedState_reachable : Reachable commentedState :=
  Reachable.comment_step addState_reachable
    (show add_comment addState 0 0 "hi" = some commentedState from rfl)

/-- C1 counterexample: in the reachable state where user 0 signed up, posted
advertisement 0 and liked it once, the advertisement's `likes` sum is 1 but
the profile's `total_likes` is 2 (the view and the post_save receiver each
incremented it), so the exact-synchronization invariant is false. -/
theorem C1_counterexample :
    ¬ (∀ s : State, Reachable s → ∀ p ∈ s.profiles,
        p.advertisements_count = ((adsOf s p.user).length : Int) ∧
        p.total_likes = sumLikes (adsOf s p.user) ∧
        p.total_dislikes = sumDislikes (adsOf s p.user)) := by
  intro h
  have h2 := (h likedState likedState_reachable ⟨0, 1, 2, 0⟩ (by simp [likedState])).2.1
  simp [likedState, adsOf, sumLikes] at h2

/-- C1 (amended): in every reachable state each profile's
`advertisements_count` equals the number of live advertisements authored by
that user, while `total_likes` and `total_dislikes` only dominate (are greater
than or equal to) the sums of the corresponding counters over those rows —
exact equality of the totals fails on reachable states. -/
theorem C1_amended_counters (s : State) (hs : Reachable s) :
    ∀ p ∈ s.profiles,
      p.advertisements_count = ((adsOf s p.user).length : Int) ∧
      sumLikes (adsOf s p.user) ≤ p.total_likes ∧
      sumDislikes (adsOf s p.user) ≤ p.total_dislikes := by
  have hI := reachable_inv hs
  exact fun p hp => ⟨hI.count_eq p hp, hI.likes_le p hp, hI.dislikes_le p hp⟩

/-- Witness for C1 (amended) at a concrete reachable state and profile. -/
theorem C1_amended_witness :
    (⟨0, 1, 2, 0⟩ : UserProfile).advertisements_count =
      ((adsOf likedState (⟨0, 1, 2, 0⟩ : UserProfile).user).length : Int) ∧
    sumLikes (adsOf likedState (⟨0, 1, 2, 0⟩ : UserProfile).user) ≤
      (⟨0, 1, 2, 0⟩ : UserProfile).total_likes ∧
    sumDislikes (adsOf likedState (⟨0, 1, 2, 0⟩ : UserProfile).user) ≤
      (⟨0, 1, 2, 0⟩ : UserProfile).total_dislikes :=
  C1_amended_counters likedState likedState_reachable ⟨0, 1, 2, 0⟩ (by simp [likedState])

/-- C8: in every reachable state each comment references a live advertisement
and a live user, and the row-level cascade of deleting a user removes all of
that user's advertisements, the user's own comments, and — transitively — all
comments on the deleted advertisements, while preserving the referential
integrity of the surviving comments. -/
theorem C8_comment_integrity_cascade (s : State) (hs : Reachable s) :
    (∀ c ∈ s.comments, (∃ a ∈ s.ads, a.pk = c.advertisement) ∧ c.author ∈ s.users) ∧
    ∀ u : Nat,
      (∀ a ∈ (delete_user s u).ads, a.author ≠ u) ∧
      (∀ c ∈ s.comments, c.author = u → c ∉ (delete_user s u).comments) ∧
      (∀ c ∈ s.comments, (∃ a ∈ s.ads, a.pk = c.advertisement ∧ a.author = u) →
        c ∉ (delete_user s u).comments) ∧
      (∀ c ∈ (delete_user s u).comments,
        (∃ a ∈ (delete_user s u).ads, a.pk = c.advertisement) ∧
        c.author ∈ (delete_user s u).users) := by
  have hI := reachable_inv hs
  refine ⟨fun c hc => ⟨hI.comments_ad_live c hc, hI.comments_author_mem c hc⟩, ?_⟩
  intro u
  refine ⟨?_, ?_, ?_, ?_⟩
  · intro a ha
    unfold delete_user at ha
    rw [List.mem_filter] at ha
    simpa using ha.2
  · intro c hc hcu hmem
    unfold delete_user at hmem
    rw [List.mem_filter] at hmem
    simp only [decide_eq_true_eq] at hmem
    exact absurd hcu (by simpa using hmem.2.1)
  · rintro c hc ⟨a, ha, hpk, hau⟩ hmem
    unfold delete_user at hmem
    rw [List.mem_filter] at hmem
    simp only [decide_eq_true_eq] at hmem
    have hall := hmem.2.2
    rw [List.all_eq_true] at hall
    have hain : a ∈ s.ads.filter (fun b => b.author = u) :=
      List.mem_filter.mpr ⟨ha, by simp [hau]⟩
    have := hall a hain
    simp [hpk] at this
  · intro c hc
    unfold delete_user at hc ⊢
    rw [List.mem_filter] at hc
    simp only [decide_eq_true_eq] at hc
    obtain ⟨hcmem, hne, hall⟩ := hc
    rw [List.all_eq_true] at hall
    constructor
    · obtain ⟨b, hb, he⟩ := hI.comments_ad_live c hcmem
      have hbne : b.author ≠ u := by
        intro hbu
        have hbin : b ∈ s.ads.filter (fun x => x.author = u) :=
          List.mem_filter.mpr ⟨hb, by simp [hbu]⟩
        have := hall b hbin
        simp [he] at this
      exact ⟨b, List.mem_filter.mpr ⟨hb, by simp [hbne]⟩, he⟩
    · exact List.mem_filter.mpr ⟨hI.comments_author_mem c hcmem, by simp [hne]⟩

/-- Witness for C8 at a concrete reachable state holding one comment. -/
theorem C8_witness :
    (∀ c ∈ commentedState.comments,
      (∃ a ∈ commentedState.ads, a.pk = c.advertisement) ∧
      c.author ∈ commentedState.users) ∧
    ∀ u : Nat,
      (∀ a ∈ (delete_user commentedState u).ads, a.author ≠ u) ∧
      (∀ c ∈ commentedState.comments, c.author = u →
        c ∉ (delete_user commentedState u).comments) ∧
      (∀ c ∈ commentedState.comments,
        (∃ a ∈ commentedState.ads, a.pk = c.advertisement ∧ a.author = u) →
        c ∉ (delete_user commentedState u).comments) ∧
      (∀ c ∈ (delete_user commentedState u).comments,
        (∃ a ∈ (delete_user commentedState u).ads, a.pk = c.advertisement) ∧
        c.author ∈ (delete_user commentedState u).users) :=
  C8_comment_integrity_cascade commentedState commentedState_reachable
